import Mathlib

/-!
sshpar: host parsing, per-host execution and fan-out.

A shallow embedding of `main.go`.

Go strings are modelled as lists of characters (`Str`).  The separators the
program looks for (`@`, `:`, `#`) are one-byte ASCII characters, so cutting a
valid UTF-8 string at them byte-wise or character-wise gives the same pieces.

`log.Fatalf` (message, then `os.Exit(1)`) and runtime panics are modelled as
the error side of `Except Fault _`.
-/

set_option autoImplicit false

namespace Sshpar

/-- A Go `string`. -/
abbrev Str := List Char

/-- How a computation of the program can stop abnormally. -/
inductive Fault where
  /-- The call `log.Fatalf(msg)`: the message is logged and the process exits with status 1. -/
  | fatal (msg : Str)
  /-- Runtime panic "index out of range" of a slice index expression. -/
  | indexOutOfRange
  deriving DecidableEq

/-- The struct `HostConfig`: `Address`, `Username` and `Port`, all strings. -/
structure HostConfig where
  Address : Str
  Username : Str
  Port : Str
  deriving DecidableEq

/-- The struct `Config`: `Script`, `Password`, `HostsFile` and `LogFile`, all strings. -/
structure Config where
  Script : Str
  Password : Str
  HostsFile : Str
  LogFile : Str
  deriving DecidableEq

instance instDecEqExcept {ε α : Type} [DecidableEq ε] [DecidableEq α] :
    DecidableEq (Except ε α) := fun a b =>
  match a, b with
  | .ok x, .ok y => if h : x = y then isTrue (by rw [h]) else isFalse (fun e => h (by cases e; rfl))
  | .error x, .error y =>
    if h : x = y then isTrue (by rw [h]) else isFalse (fun e => h (by cases e; rfl))
  | .ok _, .error _ => isFalse (fun e => by cases e)
  | .error _, .ok _ => isFalse (fun e => by cases e)

/-! ## The `strings` functions the program calls -/

namespace strings

/-- Puts `c` in front of the first piece of a split. -/
def consHead (c : Char) : List Str → List Str
  | [] => [[c]]
  | p :: ps => (c :: p) :: ps

/-- Go's `strings.Split(s, sep)` for a one-character separator: the pieces of
`s` between the occurrences of `sep`, in order; `count sep s + 1` pieces. -/
def Split : Str → Char → List Str
  | [], _ => [[]]
  | c :: cs, sep => if c = sep then [] :: Split cs sep else consHead c (Split cs sep)

/-- Go's `strings.Contains(s, sep)` for a one-character `sep`. -/
def Contains (s : Str) (sep : Char) : Bool := s.contains sep

/-- Go's `strings.HasPrefix(s, prefix)` for a one-character prefix. -/
def HasPrefix (s : Str) (c : Char) : Bool :=
  match s with
  | [] => false
  | d :: _ => d == c

/-- Go's `unicode.IsSpace`: the code points with the Unicode White_Space property. -/
def isSpace (c : Char) : Bool :=
  let n := c.toNat
  (9 ≤ n && n ≤ 13) || n == 0x20 || n == 0x85 || n == 0xA0 || n == 0x1680 ||
  (0x2000 ≤ n && n ≤ 0x200A) || n == 0x2028 || n == 0x2029 || n == 0x202F ||
  n == 0x205F || n == 0x3000

/-- Go's `strings.TrimSpace(s)`: `s` without its leading and trailing white space. -/
def TrimSpace (s : Str) : Str :=
  ((s.dropWhile isSpace).reverse.dropWhile isSpace).reverse

end strings

/-! ## The `bufio.Scanner` the program reads the fleet file with -/

namespace bufio

/-- The constant `bufio.MaxScanTokenSize`: the size of the buffer of a `Scanner`
that was given no other buffer. -/
def MaxScanTokenSize : Nat := 64 * 1024

/-- The number of bytes of a string (its UTF-8 encoding). -/
def byteLen (s : Str) : Nat := (s.map Char.utf8Size).sum

/-- Go's `dropCR`: the line without one carriage return at its end. -/
def dropCR (s : Str) : Str :=
  if s.getLast? = some '\r' then s.dropLast else s

/-- The lines of a file as `bufio.ScanLines` cuts them, line ends still to be
cleaned: the pieces between the line feeds; what follows the last line feed is
a line only when it is not empty. -/
def rawLines (data : Str) : List Str :=
  let pieces := strings.Split data '\n'
  if pieces.getLast? = some [] then pieces.dropLast else pieces

/-- The lines of a file: every line, however long, without its line end. -/
def fileLines (data : Str) : List Str :=
  (rawLines data).map dropCR

/-- The texts `scanner.Text()` returns while `scanner.Scan()` holds, for a
`bufio.NewScanner` over a file with the content `data`: the lines of the file,
up to the first line that, with its line feed, does not fit the buffer of
`MaxScanTokenSize` bytes.  At such a line `Scan` returns false (the error
`ErrTooLong` is kept for `scanner.Err()`), as it does at the end of the file. -/
def scanTexts (data : Str) : List Str :=
  ((rawLines data).takeWhile (fun line => decide (byteLen line < MaxScanTokenSize))).map dropCR

end bufio

/-- The slice index expression `xs[i]`, which panics when `i` is out of range. -/
def index (xs : List Str) (i : Nat) : Except Fault Str :=
  match xs[i]? with
  | some x => .ok x
  | none => .error .indexOutOfRange

/-- The message of `log.Fatalf("Invalid host format: %s", line)`. -/
def invalidHostFormat (line : Str) : Str := "Invalid host format: ".toList ++ line

/-- The function `parseHostLine(line string) HostConfig`. -/
def parseHostLine (line : Str) : Except Fault HostConfig :=
  let defaultPort := "22".toList
  let parts := strings.Split line '@'
  if parts.length ≠ 2 then
    .error (.fatal (invalidHostFormat line))
  else
    match index parts 0 with
    | .error e => .error e
    | .ok user =>
    match index parts 1 with
    | .error e => .error e
    | .ok hostPart =>
      if strings.Contains hostPart ':' then
        let hostParts := strings.Split hostPart ':'
        match index hostParts 0 with
        | .error e => .error e
        | .ok host =>
        match index hostParts 1 with
        | .error e => .error e
        | .ok port =>
          .ok { Address := user ++ "@".toList ++ host, Username := user, Port := port }
      else
        .ok { Address := user ++ "@".toList ++ hostPart, Username := user, Port := defaultPort }

/-! ## The world outside the program -/

/-- What the network answers to one goroutine: the error of `ssh.Dial` (if any),
the error of `conn.NewSession` (if any), and the bytes and the error (if any)
that `session.CombinedOutput` returns.  Errors are given by their `%v` text. -/
structure Remote where
  dialErr : Option Str
  sessionErr : Option Str
  output : Str
  runErr : Option Str
  deriving DecidableEq

/-- The files and the network the process sees. -/
structure Env where
  /-- The call `os.ReadFile(path)`: the content, or the error. -/
  readFile : Str → Except Str Str
  /-- The call `yaml.Unmarshal(data, &config)`: the decoded configuration, or the error. -/
  unmarshal : Str → Except Str Config
  /-- The call `os.OpenFile(path, O_CREATE|O_WRONLY|O_TRUNC, 0644)`: the error, if any. -/
  openFile : Str → Option Str
  /-- The call `os.Open(path)`: the bytes the file holds, or the error. -/
  openData : Str → Except Str Str
  /-- The answers of the network to the goroutine started for the host at a
  given position of the fleet. -/
  remote : Nat → Remote

/-! ## Reading the inputs -/

/-- The function `loadConfig(path string) Config`. -/
def loadConfig (env : Env) (path : Str) : Except Fault Config :=
  match env.readFile path with
  | .error err => .error (.fatal ("Failed to read config file: ".toList ++ err))
  | .ok data =>
    match env.unmarshal data with
    | .error err => .error (.fatal ("YAML parse error: ".toList ++ err))
    | .ok config => .ok config

/-- The `for scanner.Scan()` loop of `readHostsFile`: `texts` are the lines still
to come, `hosts` the slice built so far. -/
def readHostsLoop : List Str → List HostConfig → Except Fault (List HostConfig)
  | [], hosts => .ok hosts
  | text :: texts, hosts =>
    let line := strings.TrimSpace text
    if line = [] || strings.HasPrefix line '#' then
      readHostsLoop texts hosts
    else
      match parseHostLine line with
      | .error e => .error e
      | .ok host => readHostsLoop texts (hosts ++ [host])

/-- The function `readHostsFile(filename string) []HostConfig`. -/
def readHostsFile (env : Env) (filename : Str) : Except Fault (List HostConfig) :=
  match env.openData filename with
  | .error err => .error (.fatal ("Error opening hosts file: ".toList ++ err))
  | .ok data => readHostsLoop (bufio.scanTexts data) []

/-- The function `readScript(path string) string`. -/
def readScript (env : Env) (path : Str) : Except Fault Str :=
  match env.readFile path with
  | .error err =>
    .error (.fatal ("Cannot read script file ".toList ++ path ++ ": ".toList ++ err))
  | .ok content => .ok content

/-- The lines of the fleet file that reach `parseHostLine`: each line trimmed,
and kept when it is not empty and does not start with `#`. -/
def keptLines (texts : List Str) : List Str :=
  (texts.map strings.TrimSpace).filter (fun line => !(line = [] || strings.HasPrefix line '#'))

/-! ## One host -/

/-- What a goroutine does to the world, one call at a time. -/
inductive Action where
  /-- The call `ssh.Dial("tcp", addr, config)` with `config.User` and the password. -/
  | dial (addr user password : Str)
  /-- The call `conn.NewSession()` -/
  | newSession
  /-- The call `session.CombinedOutput(script)` -/
  | combinedOutput (script : Str)
  /-- The call `logWriter.WriteString(s)` -/
  | logWrite (s : Str)
  /-- The call `fmt.Print(s)`, `fmt.Printf` or `fmt.Println` with the text `s`. -/
  | print (s : Str)
  /-- The deferred `session.Close()`. -/
  | sessionClose
  /-- The deferred `conn.Close()`. -/
  | connClose
  /-- The deferred `wg.Done()`. -/
  | wgDone
  deriving DecidableEq

/-- The calls of one run of a function, in order, and how it ended. -/
structure Exec where
  trace : List Action
  result : Except Fault Unit
  deriving DecidableEq

/-- The text of `fmt.Sprintf("[%s] SSH connection error: %v\n", address, err)` -/
def connectionErrorMsg (address err : Str) : Str :=
  "[".toList ++ address ++ "] SSH connection error: ".toList ++ err ++ "\n".toList

/-- The text of `fmt.Sprintf("[%s] SSH session error: %v\n", address, err)` -/
def sessionErrorMsg (address err : Str) : Str :=
  "[".toList ++ address ++ "] SSH session error: ".toList ++ err ++ "\n".toList

/-- The text of `fmt.Sprintf("[%s] Command execution error: %v\n", address, err)` -/
def executionErrorMsg (address err : Str) : Str :=
  "[".toList ++ address ++ "] Command execution error: ".toList ++ err ++ "\n".toList

/-- The text of `fmt.Sprintf("\n====== [%s] ======\n", address)` -/
def frameHeader (address : Str) : Str :=
  "\n====== [".toList ++ address ++ "] ======\n".toList

/-- The function `sshExecute(host HostConfig, script string, password string,
logWriter *os.File, wg *sync.WaitGroup)`, against the answers `r` of the network.
The deferred calls are listed where they run: at the end, last deferred first. -/
def sshExecute (host : HostConfig) (script password : Str) (r : Remote) : Exec :=
  let userHost := strings.Split host.Address '@'
  match index userHost 1 with
  | .error e => ⟨[.wgDone], .error e⟩
  | .ok hostPart =>
  match index (strings.Split hostPart ':') 0 with
  | .error e => ⟨[.wgDone], .error e⟩
  | .ok hostOnly =>
    let dial := Action.dial (hostOnly ++ ":".toList ++ host.Port) host.Username password
    match r.dialErr with
    | some err =>
      let msg := connectionErrorMsg host.Address err
      ⟨[dial, .logWrite msg, .print msg, .wgDone], .ok ()⟩
    | none =>
      match r.sessionErr with
      | some err =>
        let msg := sessionErrorMsg host.Address err
        ⟨[dial, .newSession, .logWrite msg, .print msg, .connClose, .wgDone], .ok ()⟩
      | none =>
        let header := frameHeader host.Address
        let body := [dial, .newSession, .combinedOutput script,
          .logWrite header, .logWrite r.output, .logWrite "\n".toList,
          .print (header ++ r.output ++ "\n".toList)]
        let deferred := [Action.sessionClose, .connClose, .wgDone]
        match r.runErr with
        | some err =>
          let msg := executionErrorMsg host.Address err
          ⟨body ++ [.logWrite msg, .print msg] ++ deferred, .ok ()⟩
        | none => ⟨body ++ deferred, .ok ()⟩

/-- The text a list of calls writes to the log file. -/
def logText : List Action → Str
  | [] => []
  | .logWrite s :: acts => s ++ logText acts
  | _ :: acts => logText acts

/-- The text a list of calls prints to the console. -/
def consoleText : List Action → Str
  | [] => []
  | .print s :: acts => s ++ consoleText acts
  | _ :: acts => consoleText acts

/-- Whether a call opens a session or runs the payload. -/
def Action.usesSession : Action → Bool
  | .newSession => true
  | .combinedOutput _ => true
  | _ => false

/-- Whether a call is an `ssh.Dial`. -/
def Action.isDial : Action → Bool
  | .dial _ _ _ => true
  | _ => false

/-- Whether a call writes to the log file. -/
def Action.isLogWrite : Action → Bool
  | .logWrite _ => true
  | _ => false

/-- Whether a call prints to the console. -/
def Action.isPrint : Action → Bool
  | .print _ => true
  | _ => false

/-! ## The whole process -/

/-- The goroutines of the process: the main one, and the one started for the
host at position `i` of the fleet. -/
inductive Tid where
  | main
  | runner (i : Nat)
  deriving DecidableEq

/-- What `main` has in hand when the `for` loop starts. -/
structure Job where
  config : Config
  hosts : List HostConfig
  script : Str
  deriving DecidableEq

/-- A started goroutine: the calls it has still to make, and how it will end. -/
structure Runner where
  todo : List Action
  result : Except Fault Unit
  deriving DecidableEq

/-- The state of the process. -/
structure Sys where
  /-- The goroutines started so far, in the order of the fleet; their number is
  also the position the `for` loop has reached. -/
  runners : List Runner
  /-- The counter of the `sync.WaitGroup`. -/
  wg : Nat
  /-- Every call made so far, with the goroutine that made it, oldest first. -/
  events : List (Tid × Action)
  /-- `main` has printed the completion notice and returned. -/
  returned : Bool
  /-- The process was stopped by a fatal error or a panic. -/
  crashed : Option Fault
  deriving DecidableEq

/-- The text of `fmt.Println("\n✅ All tasks completed. See:", logFile)`. -/
def completionNotice (logFile : Str) : Str :=
  "\n✅ All tasks completed. See:".toList ++ " ".toList ++ logFile ++ "\n".toList

/-- The body of `main` before the `for` loop. -/
def start (env : Env) : Except Fault Job :=
  match loadConfig env "config.yaml".toList with
  | .error e => .error e
  | .ok config =>
    match env.openFile config.LogFile with
    | some err => .error (.fatal ("Failed to open log file: ".toList ++ err))
    | none =>
      match readHostsFile env config.HostsFile with
      | .error e => .error e
      | .ok hosts =>
        match readScript env ("templates/".toList ++ config.Script) with
        | .error e => .error e
        | .ok script => .ok { config := config, hosts := hosts, script := script }

/-- The state when the `for` loop starts. -/
def Sys.init : Sys :=
  { runners := [], wg := 0, events := [], returned := false, crashed := none }

/-- The state of a process that stopped before the `for` loop. -/
def Sys.aborted (f : Fault) : Sys :=
  { runners := [], wg := 0, events := [], returned := false, crashed := some f }

/-- The panic of `wg.Done()` on a zero counter (modelled as a fatal stop). -/
def negativeCounter : Fault := .fatal "sync: negative WaitGroup counter".toList

/-- One step of the goroutine `t`.  The main goroutine runs the `for` loop
(`wg.Add(1)` and `go sshExecute(...)` for the next host), then `wg.Wait()`, which
lets it through only when the counter is zero, then prints the notice and
returns, which ends the process.  A started goroutine makes its next call; when
it has none left and `sshExecute` ended in a panic, the process stops.  A
goroutine that cannot move leaves the state as it is. -/
def step (env : Env) (job : Job) (s : Sys) (t : Tid) : Sys :=
  if s.returned || s.crashed.isSome then s
  else
    match t with
    | .main =>
      match job.hosts[s.runners.length]? with
      | some host =>
        let e := sshExecute host job.script job.config.Password (env.remote s.runners.length)
        { s with wg := s.wg + 1, runners := s.runners ++ [⟨e.trace, e.result⟩] }
      | none =>
        if s.wg = 0 then
          { s with
            events := s.events ++ [(.main, .print (completionNotice job.config.LogFile))],
            returned := true }
        else s
    | .runner i =>
      match s.runners[i]? with
      | none => s
      | some r =>
        match r.todo with
        | [] =>
          match r.result with
          | .error f => { s with crashed := some f }
          | .ok _ => s
        | a :: rest =>
          let s1 : Sys :=
            { s with runners := s.runners.set i { r with todo := rest },
                     events := s.events ++ [(.runner i, a)] }
          if a = .wgDone then
            match s.wg with
            | 0 => { s1 with crashed := some negativeCounter }
            | n + 1 => { s1 with wg := n }
          else s1

/-- The state after the goroutines moved in the order `sched`. -/
def run (env : Env) (job : Job) (s : Sys) (sched : List Tid) : Sys :=
  sched.foldl (step env job) s

/-- The function `main()`, with the goroutines moving in the order `sched`. -/
def main (env : Env) (sched : List Tid) : Sys :=
  match start env with
  | .error f => Sys.aborted f
  | .ok job => run env job Sys.init sched

/-- The calls goroutine `t` has made so far, in order. -/
def emitted (s : Sys) (t : Tid) : List Action :=
  (s.events.filter (fun e => e.1 = t)).map (fun e => e.2)

/-- The goroutines whose writes make up the log file, in the order of the writes. -/
def logTags (s : Sys) : List Tid :=
  (s.events.filter (fun e => e.2.isLogWrite)).map (fun e => e.1)

/-- The goroutines whose prints make up the console, in the order of the prints. -/
def consoleTags (s : Sys) : List Tid :=
  (s.events.filter (fun e => e.2.isPrint)).map (fun e => e.1)

/-- The part of `tags` from the first to the last entry of `t`: the span of
the frame of `t`. -/
def span (t : Tid) (tags : List Tid) : List Tid :=
  ((tags.dropWhile (fun x => x ≠ t)).reverse.dropWhile (fun x => x ≠ t)).reverse

/-- The frame of `t` is in one piece: nothing of another goroutine lies
inside its span. -/
def unbroken (t : Tid) (tags : List Tid) : Bool :=
  (span t tags).all (fun x => x = t)

/-- The frame of a host as the claims describe it, for the answers `r` of the
network: the connection error line; or the session error line; or the header
line with the address, the captured output, a line feed and, when the command
returned an error, the execution error line. -/
def frameText (host : HostConfig) (r : Remote) : Str :=
  match r.dialErr with
  | some err => connectionErrorMsg host.Address err
  | none =>
    match r.sessionErr with
    | some err => sessionErrorMsg host.Address err
    | none =>
      frameHeader host.Address ++ r.output ++ "\n".toList ++
        (match r.runErr with
         | some err => executionErrorMsg host.Address err
         | none => [])

/-- The label of a host in its frame: its address in square brackets. -/
def hostLabel (host : HostConfig) : Str :=
  "[".toList ++ host.Address ++ "]".toList

/-! ## A small world to run the definitions in -/

/-- The fleet file of the example: two hosts, a comment and an empty line. -/
def demoFleet : Str := "alice@10.0.0.1\nbob@10.0.0.2:2200\n# comment\n\n".toList

/-- A world with a configuration, the fleet file `demoFleet` and a script; the
first host answers, its command fails; the second host cannot be reached. -/
def demoEnv : Env where
  readFile := fun path =>
    if path = "config.yaml".toList then .ok "cfg".toList
    else if path = "templates/run.sh".toList then .ok "uptime".toList
    else .error "no such file".toList
  unmarshal := fun _ =>
    .ok { Script := "run.sh".toList, Password := "pw".toList,
          HostsFile := "hosts.txt".toList, LogFile := "out.log".toList }
  openFile := fun _ => none
  openData := fun path =>
    if path = "hosts.txt".toList then .ok demoFleet else .error "no such file".toList
  remote := fun i =>
    if i = 0 then { dialErr := none, sessionErr := none, output := "up".toList,
                    runErr := some "exit status 1".toList }
    else { dialErr := some "timeout".toList, sessionErr := none, output := [], runErr := none }

/-- The world `demoEnv` with the malformed line `not-a-valid-line` after a
well-formed one in the fleet file. -/
def brokenEnv : Env :=
  { demoEnv with
    openData := fun _ => .ok "alice@10.0.0.1\nnot-a-valid-line\n".toList }

/-- A comment line of 65536 bytes: a `#` and 65535 times `x`. -/
def longLine : Str := '#' :: List.replicate 65535 'x'

/-- A fleet file with a well-formed line, the comment `longLine` and a second
well-formed line. -/
def longFleet : Str :=
  "alice@10.0.0.1".toList ++ '\n' :: (longLine ++ '\n' :: "bob@10.0.0.2:2200\n".toList)

/-- A fleet file with a well-formed line, the comment `longLine` and the
malformed line `not-a-valid-line`. -/
def longBrokenFleet : Str :=
  "alice@10.0.0.1".toList ++ '\n' :: (longLine ++ '\n' :: "not-a-valid-line\n".toList)

/-- The world `demoEnv` with the fleet file `longFleet`. -/
def longEnv : Env :=
  { demoEnv with openData := fun _ => .ok longFleet }

/-- The world `demoEnv` with the fleet file `longBrokenFleet`. -/
def longBrokenEnv : Env :=
  { demoEnv with openData := fun _ => .ok longBrokenFleet }

/-- What `main` has in hand in the worlds `longEnv` and `longBrokenEnv`: the
first host only. -/
def aloneJob : Job :=
  { config := { Script := "run.sh".toList, Password := "pw".toList,
                HostsFile := "hosts.txt".toList, LogFile := "out.log".toList },
    hosts := [⟨"alice@10.0.0.1".toList, "alice".toList, "22".toList⟩],
    script := "uptime".toList }

/-- An order of moves for a fleet of one host: the loop starts the goroutine, it
runs to its end, `main` passes `wg.Wait()`. -/
def alone : List Tid :=
  [.main] ++ List.replicate 12 (.runner 0) ++ [.main]

/-- The world `demoEnv` with both hosts answering and both commands failing. -/
def busyEnv : Env :=
  { demoEnv with
    remote := fun _ => { dialErr := none, sessionErr := none, output := "up".toList,
                          runErr := some "exit status 1".toList } }

/-- What `main` has in hand in the worlds `demoEnv` and `busyEnv`. -/
def demoJob : Job :=
  { config := { Script := "run.sh".toList, Password := "pw".toList,
                HostsFile := "hosts.txt".toList, LogFile := "out.log".toList },
    hosts := [⟨"alice@10.0.0.1".toList, "alice".toList, "22".toList⟩,
              ⟨"bob@10.0.0.2".toList, "bob".toList, "2200".toList⟩],
    script := "uptime".toList }

/-- An order of moves: the loop starts both goroutines; the first one runs up
to its `fmt.Printf` of header and output; the second one runs to its end; the
first one runs to its end; `main` passes `wg.Wait()`. -/
def interleaved : List Tid :=
  [.main, .main] ++ List.replicate 7 (.runner 0) ++ List.replicate 12 (.runner 1) ++
    List.replicate 5 (.runner 0) ++ [.main]

/-- An order of moves in which each goroutine runs to its end before the next
one starts to move. -/
def oneByOne : List Tid :=
  [.main, .main] ++ List.replicate 12 (.runner 0) ++ List.replicate 12 (.runner 1) ++ [.main]

/-! ## What holds in every state of the process -/

/-- Whether `wg.Done()` is the last call of a list and occurs nowhere else in it
(or the list is empty). -/
def doneLast : List Action → Bool
  | [] => true
  | a :: rest => if a = .wgDone then rest.isEmpty else (!rest.isEmpty && doneLast rest)

/-- The invariant of the process once the `for` loop has started. -/
structure Inv (env : Env) (job : Job) (s : Sys) : Prop where
  /-- No panic has happened. -/
  alive : s.crashed = none
  /-- The goroutine at position `i` runs `sshExecute` for the host at position
  `i`: what it has done and what it has still to do make up that one run. -/
  traces : ∀ i r, s.runners[i]? = some r →
    ∃ host, job.hosts[i]? = some host ∧ r.result = .ok () ∧
      emitted s (.runner i) ++ r.todo
        = (sshExecute host job.script job.config.Password (env.remote i)).trace
  /-- The counter is the number of goroutines that have not called `wg.Done()`. -/
  counter : s.wg = s.runners.countP (fun r => decide (Action.wgDone ∈ r.todo))
  /-- A goroutine that was not started has done nothing. -/
  fresh : ∀ i, s.runners.length ≤ i → emitted s (.runner i) = []
  /-- The main goroutine has printed the notice, once, exactly if it returned. -/
  notice : emitted s .main
    = if s.returned then [.print (completionNotice job.config.LogFile)] else []
  /-- When `main` has returned, every host has its goroutine, every goroutine is
  through, and the notice is the last call made. -/
  done : s.returned = true →
    s.runners.length = job.hosts.length ∧ (∀ r ∈ s.runners, r.todo = []) ∧
    s.events.getLast? = some (.main, .print (completionNotice job.config.LogFile))

/-- The work left: the hosts not yet reached by the loop (weighted by more than
the length of a run of `sshExecute`) and the calls the started goroutines have
still to make. -/
def workLeft (job : Job) (s : Sys) : Nat :=
  (job.hosts.length - s.runners.length) * 13 + (s.runners.map (fun r => r.todo.length)).sum

/-! ## Splitting and parsing a host line -/

namespace strings

theorem Split_cons_self (cs : Str) (sep : Char) :
    Split (sep :: cs) sep = [] :: Split cs sep := by
  rw [Split, if_pos rfl]

theorem Split_cons_of_ne (c : Char) (cs : Str) (sep : Char) (h : c ≠ sep) :
    Split (c :: cs) sep = consHead c (Split cs sep) := by
  rw [Split, if_neg h]

theorem consHead_length (c : Char) (l : List Str) (h : l ≠ []) :
    (consHead c l).length = l.length := by
  cases l with
  | nil => exact absurd rfl h
  | cons p ps => rfl

theorem Split_ne_nil (s : Str) (sep : Char) : Split s sep ≠ [] := by
  induction s with
  | nil => simp [Split]
  | cons c cs ih =>
    unfold Split
    split
    · simp
    · cases hs : Split cs sep with
      | nil => exact absurd hs ih
      | cons p ps => simp [consHead]

theorem Split_length (s : Str) (sep : Char) : (Split s sep).length = s.count sep + 1 := by
  induction s with
  | nil => simp [Split]
  | cons c cs ih =>
    unfold Split
    by_cases h : c = sep
    · subst h
      simp [ih]
    · rw [if_neg h, consHead_length _ _ (Split_ne_nil cs sep), ih, List.count_cons_of_ne (Ne.symm h)]

theorem Split_of_not_mem (s : Str) (sep : Char) (h : sep ∉ s) : Split s sep = [s] := by
  induction s with
  | nil => rfl
  | cons c cs ih =>
    simp only [List.mem_cons, not_or] at h
    unfold Split
    rw [if_neg (Ne.symm h.1), ih h.2]
    rfl

theorem Split_append (a b : Str) (sep : Char) (h : sep ∉ a) :
    Split (a ++ sep :: b) sep = a :: Split b sep := by
  induction a with
  | nil => simp [Split]
  | cons c cs ih =>
    simp only [List.mem_cons, not_or] at h
    rw [List.cons_append, Split_cons_of_ne _ _ _ (Ne.symm h.1), ih h.2]
    rfl

/-- Every string is cut by `Split` at its first separator. -/
theorem Split_cases (s : Str) (sep : Char) :
    (sep ∉ s ∧ Split s sep = [s]) ∨
    ∃ a b, s = a ++ sep :: b ∧ sep ∉ a ∧ Split s sep = a :: Split b sep := by
  induction s with
  | nil => left; simp [Split]
  | cons c cs ih =>
    by_cases hc : c = sep
    · subst hc
      right
      exact ⟨[], cs, rfl, by simp, by simp [Split]⟩
    · rcases ih with ⟨hn, _⟩ | ⟨a, b, hs, ha, _⟩
      · left
        have : sep ∉ c :: cs := by simp [hn, Ne.symm hc]
        exact ⟨this, Split_of_not_mem _ _ this⟩
      · right
        have ha2 : sep ∉ c :: a := by simp [ha, Ne.symm hc]
        refine ⟨c :: a, b, by rw [hs]; rfl, ha2, ?_⟩
        rw [hs, ← List.cons_append]
        exact Split_append _ _ _ ha2

/-- A split into exactly two pieces determines the string. -/
theorem Split_eq_pair (s a b : Str) (sep : Char) (h : Split s sep = [a, b]) :
    s = a ++ sep :: b ∧ sep ∉ a ∧ sep ∉ b := by
  rcases Split_cases s sep with ⟨_, h1⟩ | ⟨a2, b2, hs, ha, h2⟩
  · rw [h1] at h; simp at h
  · rw [h2] at h
    simp only [List.cons.injEq] at h
    obtain ⟨rfl, hb⟩ := h
    have hlen := Split_length b2 sep
    rw [hb] at hlen
    have hcnt : b2.count sep = 0 := by simpa using hlen.symm
    have hnb : sep ∉ b2 := List.count_eq_zero.mp hcnt
    rw [Split_of_not_mem _ _ hnb] at hb
    simp only [List.cons.injEq, and_true] at hb
    subst hb
    exact ⟨hs, ha, hnb⟩

theorem Contains_iff (s : Str) (sep : Char) : Contains s sep = true ↔ sep ∈ s := by
  simp [Contains]


theorem mem_of_Split_two (s a b : Str) (r : List Str) (sep : Char)
    (h : Split s sep = a :: b :: r) : sep ∈ s := by
  have hl := Split_length s sep
  rw [h] at hl
  apply List.count_pos_iff.mp
  simp only [List.length_cons] at hl
  omega

end strings

/-- A line with one `@` and no `:` after it gets the default port. -/
theorem parseHostLine_default (line user hostPart : Str)
    (h : strings.Split line '@' = [user, hostPart]) (hc : ':' ∉ hostPart) :
    parseHostLine line =
      .ok { Address := user ++ "@".toList ++ hostPart, Username := user,
            Port := "22".toList } := by
  have hc2 : strings.Contains hostPart ':' = false := by
    simpa [strings.Contains] using hc
  simp [parseHostLine, h, index, hc2]

/-- A line with one `@` and a `:` after it gets the first two `:`-pieces. -/
theorem parseHostLine_port (line user hostPart host port : Str) (rest : List Str)
    (h : strings.Split line '@' = [user, hostPart])
    (hs : strings.Split hostPart ':' = host :: port :: rest) :
    parseHostLine line =
      .ok { Address := user ++ "@".toList ++ host, Username := user, Port := port } := by
  have hc2 : strings.Contains hostPart ':' = true := by
    simpa [strings.Contains] using strings.mem_of_Split_two _ _ _ _ _ hs
  simp [parseHostLine, h, index, hc2, hs]


theorem Split_two_of_count (s : Str) (sep : Char) (h : s.count sep = 1) :
    ∃ a b, strings.Split s sep = [a, b] := by
  have hl := strings.Split_length s sep
  rw [h] at hl
  rcases hs : strings.Split s sep with _ | ⟨a, _ | ⟨b, _ | ⟨c, r⟩⟩⟩
  all_goals rw [hs] at hl
  all_goals simp at hl
  exact ⟨a, b, rfl⟩

theorem Split_two_of_mem (s : Str) (sep : Char) (h : sep ∈ s) :
    ∃ a b r, strings.Split s sep = a :: b :: r := by
  have hl := strings.Split_length s sep
  have hp : 0 < s.count sep := List.count_pos_iff.mpr h
  rcases hs : strings.Split s sep with _ | ⟨a, _ | ⟨b, r⟩⟩
  all_goals rw [hs] at hl
  · simp at hl
  · simp at hl; omega
  · exact ⟨a, b, r, rfl⟩

theorem parseHostLine_fatal (line : Str) (h : line.count '@' ≠ 1) :
    parseHostLine line = .error (.fatal (invalidHostFormat line)) := by
  have hl : (strings.Split line '@').length ≠ 2 := by
    rw [strings.Split_length]; omega
  simp [parseHostLine, hl]

theorem parseHostLine_ok (line : Str) (h : line.count '@' = 1) :
    ∃ d : HostConfig, parseHostLine line = .ok d ∧ '@' ∈ d.Address := by
  obtain ⟨user, hostPart, hs⟩ := Split_two_of_count line '@' h
  by_cases hc : ':' ∈ hostPart
  · obtain ⟨host, port, r, hp⟩ := Split_two_of_mem hostPart ':' hc
    exact ⟨_, parseHostLine_port line user hostPart host port r hs hp, by simp⟩
  · exact ⟨_, parseHostLine_default line user hostPart hs hc, by simp⟩

theorem parseHostLine_address (line : Str) (d : HostConfig) (h : parseHostLine line = .ok d) :
    '@' ∈ d.Address := by
  by_cases hc : line.count '@' = 1
  · obtain ⟨d2, h2, hat⟩ := parseHostLine_ok line hc
    rw [h] at h2
    cases h2
    exact hat
  · rw [parseHostLine_fatal line hc] at h
    cases h

/-- C1: `parseHostLine` stops with the fatal error "Invalid host format: <line>"
for every line that does not contain exactly one `@`, and returns a `HostConfig`
for every line that contains exactly one `@`. -/
theorem parseHostLine_fails_iff_not_one_at (line : Str) :
    (line.count '@' ≠ 1 → parseHostLine line = .error (.fatal (invalidHostFormat line))) ∧
    (line.count '@' = 1 → ∃ d : HostConfig, parseHostLine line = .ok d) := by
  constructor
  · exact parseHostLine_fatal line
  · intro h
    obtain ⟨d, hd, _⟩ := parseHostLine_ok line h
    exact ⟨d, hd⟩

theorem parseHostLine_fails_iff_not_one_at_witness :
    parseHostLine "not-a-valid-line".toList
        = .error (.fatal (invalidHostFormat "not-a-valid-line".toList)) ∧
    parseHostLine "a@b@c".toList = .error (.fatal (invalidHostFormat "a@b@c".toList)) ∧
    ∃ hc : HostConfig, parseHostLine "alice@10.0.0.1".toList = .ok hc :=
  ⟨(parseHostLine_fails_iff_not_one_at "not-a-valid-line".toList).1 (by decide),
   (parseHostLine_fails_iff_not_one_at "a@b@c".toList).1 (by decide),
   (parseHostLine_fails_iff_not_one_at "alice@10.0.0.1".toList).2 (by decide)⟩

/-- C2: for `user`, `host` and `port` free of `@` and `:`, the line `user@host`
parses to address `user@host`, user name `user` and port `22`, and the line
`user@host:port` to address `user@host`, user name `user` and port `port`; the
port is not part of the address.  (That `user` has no `:` is not needed.) -/
theorem parseHostLine_user_host_port (user host port : Str)
    (hu : '@' ∉ user) (hh : '@' ∉ host) (hhc : ':' ∉ host)
    (hp : '@' ∉ port) (hpc : ':' ∉ port) :
    parseHostLine (user ++ "@".toList ++ host)
      = .ok { Address := user ++ "@".toList ++ host, Username := user, Port := "22".toList } ∧
    parseHostLine (user ++ "@".toList ++ host ++ ":".toList ++ port)
      = .ok { Address := user ++ "@".toList ++ host, Username := user, Port := port } := by
  constructor
  · apply parseHostLine_default _ user host _ hhc
    have e : user ++ "@".toList ++ host = user ++ '@' :: host := by simp
    rw [e, strings.Split_append _ _ _ hu, strings.Split_of_not_mem _ _ hh]
  · have hhp : '@' ∉ host ++ ':' :: port := by
      simp [hh, hp]
    apply parseHostLine_port _ user (host ++ ':' :: port) host port []
    · have e : user ++ "@".toList ++ host ++ ":".toList ++ port
          = user ++ '@' :: (host ++ ':' :: port) := by simp
      rw [e, strings.Split_append _ _ _ hu, strings.Split_of_not_mem _ _ hhp]
    · rw [strings.Split_append _ _ _ hhc, strings.Split_of_not_mem _ _ hpc]

theorem parseHostLine_user_host_port_witness :
    parseHostLine ("bob".toList ++ "@".toList ++ "10.0.0.2".toList)
      = .ok { Address := "bob".toList ++ "@".toList ++ "10.0.0.2".toList,
              Username := "bob".toList, Port := "22".toList } ∧
    parseHostLine ("bob".toList ++ "@".toList ++ "10.0.0.2".toList ++ ":".toList ++ "2200".toList)
      = .ok { Address := "bob".toList ++ "@".toList ++ "10.0.0.2".toList,
              Username := "bob".toList, Port := "2200".toList } :=
  parseHostLine_user_host_port "bob".toList "10.0.0.2".toList "2200".toList
    (by decide) (by decide) (by decide) (by decide) (by decide)

/-- C10, as stated, fails: the line `u@h:1:2` has one `@` and a `:` after it,
and is parsed to address `u@h` and port `1`; the text `:2` is dropped, so
address, `:` and port do not give the line back. -/
theorem parseHostLine_drops_after_second_colon :
    "u@h:1:2".toList.count '@' = 1 ∧
    strings.Split "u@h:1:2".toList '@' = ["u".toList, "h:1:2".toList] ∧
    ':' ∈ "h:1:2".toList ∧
    parseHostLine "u@h:1:2".toList
      = .ok { Address := "u@h".toList, Username := "u".toList, Port := "1".toList } ∧
    "u@h".toList ++ ":".toList ++ "1".toList ≠ "u@h:1:2".toList := by
  decide

/-- C10, amended: for every line with exactly one `@` (so that `Split` gives the
two pieces `user` and `hostPart`) whose host part contains exactly one `:`,
`parseHostLine` returns a descriptor whose `Address`, a `:` and `Port` give the
line back. -/
theorem parseHostLine_single_colon_lossless (line user hostPart : Str)
    (h : strings.Split line '@' = [user, hostPart]) (hc : hostPart.count ':' = 1) :
    ∃ d : HostConfig, parseHostLine line = .ok d ∧
      d.Address ++ ":".toList ++ d.Port = line := by
  obtain ⟨host, port, hp⟩ := Split_two_of_count hostPart ':' hc
  refine ⟨_, parseHostLine_port line user hostPart host port [] h hp, ?_⟩
  obtain ⟨hline, -, -⟩ := strings.Split_eq_pair _ _ _ _ h
  obtain ⟨hhost, -, -⟩ := strings.Split_eq_pair _ _ _ _ hp
  rw [hline, hhost]
  simp

theorem parseHostLine_single_colon_lossless_witness :
    ∃ d : HostConfig, parseHostLine "bob@10.0.0.2:2200".toList = .ok d ∧
      d.Address ++ ":".toList ++ d.Port = "bob@10.0.0.2:2200".toList :=
  parseHostLine_single_colon_lossless "bob@10.0.0.2:2200".toList "bob".toList
    "10.0.0.2:2200".toList (by decide) (by decide)


/-! ## One host: the frames of `sshExecute` -/

/-- With an `@` in the address, both index expressions of `sshExecute` are in range. -/
theorem sshExecute_indices (address : Str) (hat : '@' ∈ address) :
    ∃ hostPart hostOnly, index (strings.Split address '@') 1 = .ok hostPart ∧
      index (strings.Split hostPart ':') 0 = .ok hostOnly := by
  obtain ⟨a, b, r, hs⟩ := Split_two_of_mem address '@' hat
  rcases hc : strings.Split b ':' with _ | ⟨c, r2⟩
  · exact absurd hc (strings.Split_ne_nil _ _)
  · exact ⟨b, c, by simp [index, hs], by simp [index, hc]⟩

/-- Without an `@` in the address, `sshExecute` panics before it dials. -/
theorem sshExecute_panics (host : HostConfig) (script password : Str) (r : Remote)
    (hat : '@' ∉ host.Address) :
    sshExecute host script password r = ⟨[.wgDone], .error .indexOutOfRange⟩ := by
  simp [sshExecute, strings.Split_of_not_mem _ _ hat, index]

theorem sshExecute_result (host : HostConfig) (script password : Str) (r : Remote)
    (hat : '@' ∈ host.Address) : (sshExecute host script password r).result = .ok () := by
  obtain ⟨hp, ho, h1, h2⟩ := sshExecute_indices host.Address hat
  unfold sshExecute
  simp only [h1, h2]
  rcases r with ⟨_ | d, _ | s, o, _ | e⟩ <;> rfl

/-- C5: for every host whose connection fails (`ssh.Dial` is reached, which
takes an `@` in the address, and returns an error), `sshExecute` ends normally,
never opens a session and never runs the payload, and the text it writes to the
log and the text it prints are both the one line that carries the connection
error: no captured output and no execution error line. -/
theorem sshExecute_connection_error (host : HostConfig) (script password err : Str)
    (r : Remote) (hat : '@' ∈ host.Address) (hd : r.dialErr = some err) :
    (sshExecute host script password r).result = .ok () ∧
    (∀ a ∈ (sshExecute host script password r).trace, a.usesSession = false) ∧
    logText (sshExecute host script password r).trace
      = connectionErrorMsg host.Address err ∧
    consoleText (sshExecute host script password r).trace
      = connectionErrorMsg host.Address err := by
  obtain ⟨hp, ho, h1, h2⟩ := sshExecute_indices host.Address hat
  unfold sshExecute
  simp only [h1, h2, hd]
  simp [logText, consoleText, Action.usesSession]

theorem sshExecute_connection_error_witness :
    (sshExecute ⟨"bob@10.0.0.2".toList, "bob".toList, "2200".toList⟩ "uptime".toList
      "pw".toList (demoEnv.remote 1)).result = .ok () ∧
    (∀ a ∈ (sshExecute ⟨"bob@10.0.0.2".toList, "bob".toList, "2200".toList⟩ "uptime".toList
      "pw".toList (demoEnv.remote 1)).trace, a.usesSession = false) ∧
    logText (sshExecute ⟨"bob@10.0.0.2".toList, "bob".toList, "2200".toList⟩ "uptime".toList
      "pw".toList (demoEnv.remote 1)).trace
      = connectionErrorMsg "bob@10.0.0.2".toList "timeout".toList ∧
    consoleText (sshExecute ⟨"bob@10.0.0.2".toList, "bob".toList, "2200".toList⟩
      "uptime".toList "pw".toList (demoEnv.remote 1)).trace
      = connectionErrorMsg "bob@10.0.0.2".toList "timeout".toList :=
  sshExecute_connection_error ⟨"bob@10.0.0.2".toList, "bob".toList, "2200".toList⟩
    "uptime".toList "pw".toList "timeout".toList (demoEnv.remote 1) (by decide) (by decide)

/-- C6: for every host whose connection and session succeed, the text
`sshExecute` writes to the log, and the text it prints, is the header line with
the address of the host, then the captured combined output (and a line break),
then the execution error line; that line is there exactly when running the
payload returned an error, and the captured output is there in either case. -/
theorem sshExecute_frame_order (host : HostConfig) (script password : Str) (r : Remote)
    (hat : '@' ∈ host.Address) (hd : r.dialErr = none) (hs : r.sessionErr = none) :
    (sshExecute host script password r).result = .ok () ∧
    logText (sshExecute host script password r).trace
      = frameHeader host.Address ++ r.output ++ "\n".toList ++
        (match r.runErr with
         | some err => executionErrorMsg host.Address err
         | none => []) ∧
    consoleText (sshExecute host script password r).trace
      = frameHeader host.Address ++ r.output ++ "\n".toList ++
        (match r.runErr with
         | some err => executionErrorMsg host.Address err
         | none => []) ∧
    (∀ err, executionErrorMsg host.Address err ≠ []) := by
  obtain ⟨hp, ho, h1, h2⟩ := sshExecute_indices host.Address hat
  unfold sshExecute
  simp only [h1, h2, hd, hs]
  refine ⟨?_, ?_, ?_, ?_⟩
  · cases r.runErr <;> rfl
  · cases r.runErr <;> simp [logText]
  · cases r.runErr <;> simp [consoleText]
  · intro err
    simp [executionErrorMsg]

theorem sshExecute_frame_order_witness :
    (sshExecute ⟨"alice@10.0.0.1".toList, "alice".toList, "22".toList⟩ "uptime".toList
      "pw".toList (demoEnv.remote 0)).result = .ok () ∧
    logText (sshExecute ⟨"alice@10.0.0.1".toList, "alice".toList, "22".toList⟩
      "uptime".toList "pw".toList (demoEnv.remote 0)).trace
      = frameHeader "alice@10.0.0.1".toList ++ (demoEnv.remote 0).output ++ "\n".toList ++
        (match (demoEnv.remote 0).runErr with
         | some err => executionErrorMsg "alice@10.0.0.1".toList err
         | none => []) ∧
    consoleText (sshExecute ⟨"alice@10.0.0.1".toList, "alice".toList, "22".toList⟩
      "uptime".toList "pw".toList (demoEnv.remote 0)).trace
      = frameHeader "alice@10.0.0.1".toList ++ (demoEnv.remote 0).output ++ "\n".toList ++
        (match (demoEnv.remote 0).runErr with
         | some err => executionErrorMsg "alice@10.0.0.1".toList err
         | none => []) ∧
    (∀ err, executionErrorMsg "alice@10.0.0.1".toList err ≠ []) :=
  sshExecute_frame_order ⟨"alice@10.0.0.1".toList, "alice".toList, "22".toList⟩
    "uptime".toList "pw".toList (demoEnv.remote 0) (by decide) (by decide) (by decide)

/-- C7: for every host and every answer of the network (connection failure,
session failure, successful execution, failed execution, and also the panic on
an address without `@`), the text `sshExecute` writes to the log file is the
same, character for character, as the text it prints to the console. -/
theorem sshExecute_log_eq_console (host : HostConfig) (script password : Str) (r : Remote) :
    logText (sshExecute host script password r).trace
      = consoleText (sshExecute host script password r).trace := by
  by_cases hat : '@' ∈ host.Address
  · obtain ⟨hp, ho, h1, h2⟩ := sshExecute_indices host.Address hat
    unfold sshExecute
    simp only [h1, h2]
    rcases r with ⟨_ | d, _ | s, o, _ | e⟩ <;> simp [logText, consoleText]
  · rw [sshExecute_panics _ _ _ _ hat]
    rfl


/-! ## The process: invariant -/

theorem countP_set_add {α : Type} (p : α → Bool) (l : List α) (i : Nat) (a b : α)
    (h : l[i]? = some a) :
    (l.set i b).countP p + (if p a then 1 else 0) = l.countP p + (if p b then 1 else 0) := by
  induction l generalizing i with
  | nil => simp at h
  | cons x xs ih =>
    cases i with
    | zero =>
      simp only [List.getElem?_cons_zero, Option.some.injEq] at h
      subst h
      simp only [List.set_cons_zero, List.countP_cons]
      omega
    | succ n =>
      simp only [List.getElem?_cons_succ] at h
      have := ih n h
      simp only [List.set_cons_succ, List.countP_cons]
      omega

theorem sum_map_set_add {α : Type} (f : α → Nat) (l : List α) (i : Nat) (a b : α)
    (h : l[i]? = some a) :
    ((l.set i b).map f).sum + f a = (l.map f).sum + f b := by
  induction l generalizing i with
  | nil => simp at h
  | cons x xs ih =>
    cases i with
    | zero =>
      simp only [List.getElem?_cons_zero, Option.some.injEq] at h
      subst h
      simp only [List.set_cons_zero, List.map_cons, List.sum_cons]
      omega
    | succ n =>
      simp only [List.getElem?_cons_succ] at h
      have := ih n h
      simp only [List.set_cons_succ, List.map_cons, List.sum_cons]
      omega

theorem doneLast_tail (a : Action) (rest : List Action) (h : doneLast (a :: rest) = true) :
    doneLast rest = true := by
  unfold doneLast at h
  by_cases ha : a = .wgDone
  · rw [if_pos ha] at h
    cases rest with
    | nil => rfl
    | cons b r => simp at h
  · rw [if_neg ha] at h
    simp only [Bool.and_eq_true] at h
    exact h.2

theorem doneLast_suffix (pre post : List Action) (h : doneLast (pre ++ post) = true) :
    doneLast post = true := by
  induction pre with
  | nil => exact h
  | cons a pre ih => exact ih (doneLast_tail a _ h)

theorem doneLast_mem (t : List Action) (h : doneLast t = true) (hne : t ≠ []) :
    Action.wgDone ∈ t := by
  induction t with
  | nil => exact absurd rfl hne
  | cons a rest ih =>
    by_cases ha : a = .wgDone
    · simp [ha]
    · unfold doneLast at h
      rw [if_neg ha] at h
      simp only [Bool.and_eq_true, Bool.not_eq_true', List.isEmpty_eq_false] at h
      have hr : rest ≠ [] := by
        intro e
        rw [e] at h
        simp at h
      exact List.mem_cons_of_mem _ (ih h.2 hr)

theorem doneLast_head (rest : List Action) (h : doneLast (.wgDone :: rest) = true) :
    rest = [] := by
  unfold doneLast at h
  rw [if_pos rfl] at h
  simpa using h

theorem sshExecute_doneLast (host : HostConfig) (script password : Str) (r : Remote) :
    doneLast (sshExecute host script password r).trace = true := by
  by_cases hat : '@' ∈ host.Address
  · obtain ⟨hp, ho, h1, h2⟩ := sshExecute_indices host.Address hat
    unfold sshExecute
    simp only [h1, h2]
    rcases r with ⟨_ | d, _ | s, o, _ | e⟩ <;> simp [doneLast]
  · rw [sshExecute_panics _ _ _ _ hat]
    rfl

theorem sshExecute_length (host : HostConfig) (script password : Str) (r : Remote) :
    (sshExecute host script password r).trace.length ≤ 12 := by
  by_cases hat : '@' ∈ host.Address
  · obtain ⟨hp, ho, h1, h2⟩ := sshExecute_indices host.Address hat
    unfold sshExecute
    simp only [h1, h2]
    rcases r with ⟨_ | d, _ | s, o, _ | e⟩ <;> simp
  · rw [sshExecute_panics _ _ _ _ hat]
    simp

theorem emitted_snoc_self (s : Sys) (t : Tid) (a : Action) (evs : List (Tid × Action))
    (h : s.events = evs ++ [(t, a)]) :
    emitted s t = (evs.filter (fun e => e.1 = t)).map (fun e => e.2) ++ [a] := by
  simp [emitted, h, List.filter_append]

theorem emitted_snoc_other (s : Sys) (t u : Tid) (a : Action) (evs : List (Tid × Action))
    (h : s.events = evs ++ [(t, a)]) (hne : t ≠ u) :
    emitted s u = (evs.filter (fun e => e.1 = u)).map (fun e => e.2) := by
  simp [emitted, h, List.filter_append, hne]


theorem sshExecute_wgDone_mem (host : HostConfig) (script password : Str) (r : Remote) :
    Action.wgDone ∈ (sshExecute host script password r).trace := by
  apply doneLast_mem _ (sshExecute_doneLast host script password r)
  by_cases hat : '@' ∈ host.Address
  · obtain ⟨hp, ho, h1, h2⟩ := sshExecute_indices host.Address hat
    unfold sshExecute
    simp only [h1, h2]
    rcases r with ⟨_ | d, _ | s, o, _ | e⟩ <;> simp
  · rw [sshExecute_panics _ _ _ _ hat]
    simp

theorem init_inv (env : Env) (job : Job) : Inv env job Sys.init where
  alive := rfl
  traces := by
    intro i r h
    simp [Sys.init] at h
  counter := rfl
  fresh := by
    intro i _
    rfl
  notice := rfl
  done := by
    intro h
    simp [Sys.init] at h

/-- In a state of the invariant, what a goroutine has still to do ends with its
`wg.Done()`. -/
theorem Inv.todo_doneLast {env : Env} {job : Job} {s : Sys} (hs : Inv env job s)
    (i : Nat) (r : Runner) (h : s.runners[i]? = some r) : doneLast r.todo = true := by
  obtain ⟨host, _, _, ht⟩ := hs.traces i r h
  apply doneLast_suffix (emitted s (.runner i))
  rw [ht]
  exact sshExecute_doneLast _ _ _ _

theorem Inv.length_le {env : Env} {job : Job} {s : Sys} (hs : Inv env job s) :
    s.runners.length ≤ job.hosts.length := by
  by_contra hlt
  have hlt2 : job.hosts.length < s.runners.length := by omega
  obtain ⟨host, hh, _, _⟩ := hs.traces job.hosts.length _ (List.getElem?_eq_getElem hlt2)
  rw [List.getElem?_eq_none (le_refl _)] at hh
  cases hh

/-- The loop step: `wg.Add(1)` and `go sshExecute(...)` for the next host. -/
theorem spawn_inv (env : Env) (job : Job) (hjob : ∀ h ∈ job.hosts, '@' ∈ h.Address)
    (s : Sys) (hs : Inv env job s) (hret : s.returned = false) (host : HostConfig)
    (hh : job.hosts[s.runners.length]? = some host) :
    Inv env job
      { s with
        wg := s.wg + 1,
        runners := s.runners ++
          [⟨(sshExecute host job.script job.config.Password (env.remote s.runners.length)).trace,
            (sshExecute host job.script job.config.Password
              (env.remote s.runners.length)).result⟩] } where
  alive := hs.alive
  traces := by
    intro j r hj
    by_cases hlt : j < s.runners.length
    · rw [List.getElem?_append_left hlt] at hj
      exact hs.traces j r hj
    · have hge : s.runners.length ≤ j := by omega
      rw [List.getElem?_append_right hge] at hj
      have hj0 : j - s.runners.length = 0 := by
        by_contra hne
        rw [List.getElem?_eq_none (by simp; omega)] at hj
        cases hj
      have hjeq : j = s.runners.length := by omega
      subst hjeq
      simp only [Nat.sub_self, List.getElem?_cons_zero, Option.some.injEq] at hj
      subst hj
      refine ⟨host, hh, ?_, ?_⟩
      · exact sshExecute_result host _ _ _ (hjob host (List.mem_iff_getElem?.mpr ⟨_, hh⟩))
      · show emitted s (.runner s.runners.length) ++ _ = _
        rw [hs.fresh _ (le_refl _)]
        rfl
  counter := by
    show s.wg + 1 = _
    rw [List.countP_append, ← hs.counter]
    simp [sshExecute_wgDone_mem]
  fresh := by
    intro i hi
    apply hs.fresh i
    simp only [List.length_append, List.length_singleton] at hi
    omega
  notice := hs.notice
  done := by
    intro h
    rw [hret] at h
    cases h

/-- The step of `main` past `wg.Wait()`: the notice, and the return. -/
theorem return_inv (env : Env) (job : Job) (s : Sys) (hs : Inv env job s)
    (hret : s.returned = false) (hh : job.hosts[s.runners.length]? = none)
    (hw : s.wg = 0) :
    Inv env job
      { s with
        events := s.events ++ [(.main, .print (completionNotice job.config.LogFile))],
        returned := true } where
  alive := hs.alive
  traces := by
    intro j r hj
    obtain ⟨host, h1, h2, h3⟩ := hs.traces j r hj
    refine ⟨host, h1, h2, ?_⟩
    rw [← h3, emitted_snoc_other _ .main (.runner j) _ s.events rfl (by simp)]
    rfl
  counter := hs.counter
  fresh := by
    intro i hi
    rw [emitted_snoc_other _ .main (.runner i) _ s.events rfl (by simp)]
    exact hs.fresh i hi
  notice := by
    rw [emitted_snoc_self _ .main _ s.events rfl]
    have := hs.notice
    rw [hret] at this
    simp only [emitted] at this
    simp [this]
  done := by
    intro _
    refine ⟨?_, ?_, ?_⟩
    · have h1 := hs.length_le
      have h2 := List.getElem?_eq_none_iff.mp hh
      show s.runners.length = job.hosts.length
      omega
    · intro r hr
      show r.todo = []
      obtain ⟨j, hj⟩ := List.mem_iff_getElem?.mp hr
      have hd := hs.todo_doneLast j r hj
      by_contra hne
      have hm := doneLast_mem _ hd hne
      have hc := hs.counter
      rw [hw] at hc
      have := List.countP_eq_zero.mp hc.symm r hr
      simp [hm] at this
    · show (s.events ++ _).getLast? = _
      rw [List.getLast?_concat]


/-- The step of a started goroutine: its next call. -/
theorem runner_inv (env : Env) (job : Job) (s : Sys) (hs : Inv env job s)
    (hret : s.returned = false) (i : Nat) (r : Runner) (a : Action) (rest : List Action)
    (hr : s.runners[i]? = some r) (ht : r.todo = a :: rest) :
    (a = .wgDone → 0 < s.wg) ∧
    Inv env job
      { s with
        runners := s.runners.set i { r with todo := rest },
        events := s.events ++ [(.runner i, a)],
        wg := s.wg - (if a = .wgDone then 1 else 0) } := by
  have hilt : i < s.runners.length := by
    by_contra hge
    rw [List.getElem?_eq_none (by omega)] at hr
    cases hr
  have hd : doneLast (a :: rest) = true := by
    rw [← ht]
    exact hs.todo_doneLast i r hr
  have hcount := countP_set_add (fun r => decide (Action.wgDone ∈ r.todo)) s.runners i r
    { r with todo := rest } hr
  have hmem : Action.wgDone ∈ r.todo := by
    rw [ht]
    exact doneLast_mem _ hd (by simp)
  have hrest : a ≠ .wgDone → Action.wgDone ∈ rest := by
    intro hne
    have := doneLast_mem _ hd (by simp)
    simp only [List.mem_cons] at this
    rcases this with h | h
    · exact absurd h.symm hne
    · exact h
  have hrest2 : a = .wgDone → rest = [] := by
    intro he
    rw [he] at hd
    exact doneLast_head _ hd
  simp only [hmem, decide_True, if_true] at hcount
  have hwg := hs.counter
  refine ⟨?_, ?_⟩
  · intro ha
    have : rest = [] := hrest2 ha
    subst this
    simp at hcount
    omega
  · constructor
    · exact hs.alive
    · intro j r2 hj
      simp only at hj
      by_cases hji : i = j
      · subst hji
        rw [List.getElem?_set_self hilt] at hj
        simp only [Option.some.injEq] at hj
        subst hj
        obtain ⟨host, h1, h2, h3⟩ := hs.traces i r hr
        refine ⟨host, h1, h2, ?_⟩
        rw [← h3, emitted_snoc_self _ (.runner i) a s.events rfl, ht]
        simp [emitted]
      · rw [List.getElem?_set_ne hji] at hj
        obtain ⟨host, h1, h2, h3⟩ := hs.traces j r2 hj
        refine ⟨host, h1, h2, ?_⟩
        rw [← h3, emitted_snoc_other _ (.runner i) (.runner j) a s.events rfl (by simp [hji])]
        rfl
    · show s.wg - _ = (s.runners.set i _).countP _
      by_cases ha : a = .wgDone
      · have : rest = [] := hrest2 ha
        subst this
        simp only [List.not_mem_nil, decide_False] at hcount
        simp only [ha, if_true]
        simp at hcount
        omega
      · have := hrest ha
        simp only [this, decide_True, if_true] at hcount
        simp only [ha, if_false]
        omega
    · intro j hj
      simp only [List.length_set] at hj
      rw [emitted_snoc_other _ (.runner i) (.runner j) a s.events rfl
        (by simp; omega)]
      exact hs.fresh j hj
    · rw [emitted_snoc_other _ (.runner i) .main a s.events rfl (by simp)]
      exact hs.notice
    · intro h
      rw [hret] at h
      cases h

/-- Every step keeps the invariant, when every host of the fleet has an `@` in
its address. -/
theorem step_inv (env : Env) (job : Job) (hjob : ∀ h ∈ job.hosts, '@' ∈ h.Address)
    (s : Sys) (t : Tid) (hs : Inv env job s) : Inv env job (step env job s t) := by
  by_cases hstop : (s.returned || s.crashed.isSome) = true
  · have e : step env job s t = s := by
      unfold step
      rw [if_pos hstop]
    rw [e]
    exact hs
  · have hret : s.returned = false := by
      cases h : s.returned
      · rfl
      · simp [h] at hstop
    cases t with
    | main =>
      cases hh : job.hosts[s.runners.length]? with
      | some host =>
        have e : step env job s .main =
            { s with
              wg := s.wg + 1,
              runners := s.runners ++
                [⟨(sshExecute host job.script job.config.Password
                    (env.remote s.runners.length)).trace,
                  (sshExecute host job.script job.config.Password
                    (env.remote s.runners.length)).result⟩] } := by
          unfold step
          rw [if_neg hstop]
          simp only [hh]
        rw [e]
        exact spawn_inv env job hjob s hs hret host hh
      | none =>
        by_cases hw : s.wg = 0
        · have e : step env job s .main =
              { s with
                events := s.events ++ [(.main, .print (completionNotice job.config.LogFile))],
                returned := true } := by
            unfold step
            rw [if_neg hstop]
            simp only [hh, hw, if_true]
          rw [e]
          exact return_inv env job s hs hret hh hw
        · have e : step env job s .main = s := by
            unfold step
            rw [if_neg hstop]
            simp only [hh, hw, if_false]
          rw [e]
          exact hs
    | runner i =>
      cases hr : s.runners[i]? with
      | none =>
        have e : step env job s (.runner i) = s := by
          unfold step
          rw [if_neg hstop]
          simp only [hr]
        rw [e]
        exact hs
      | some r =>
        obtain ⟨host, _, hres, _⟩ := hs.traces i r hr
        cases ht : r.todo with
        | nil =>
          have e : step env job s (.runner i) = s := by
            unfold step
            rw [if_neg hstop]
            simp only [hr, ht, hres]
          rw [e]
          exact hs
        | cons a rest =>
          obtain ⟨hpos, hinv⟩ := runner_inv env job s hs hret i r a rest hr ht
          by_cases ha : a = .wgDone
          · obtain ⟨n, hn⟩ : ∃ n, s.wg = n + 1 := ⟨s.wg - 1, by have := hpos ha; omega⟩
            have e : step env job s (.runner i) =
                { s with
                  runners := s.runners.set i { r with todo := rest },
                  events := s.events ++ [(.runner i, a)],
                  wg := s.wg - (if a = .wgDone then 1 else 0) } := by
              unfold step
              rw [if_neg hstop]
              simp only [hr, ht, ha, if_true, hn]
              simp
            rw [e]
            exact hinv
          · have e : step env job s (.runner i) =
                { s with
                  runners := s.runners.set i { r with todo := rest },
                  events := s.events ++ [(.runner i, a)],
                  wg := s.wg - (if a = .wgDone then 1 else 0) } := by
              unfold step
              rw [if_neg hstop]
              simp only [hr, ht, ha, if_false]
              simp
            rw [e]
            exact hinv

theorem run_inv (env : Env) (job : Job) (hjob : ∀ h ∈ job.hosts, '@' ∈ h.Address)
    (sched : List Tid) (s : Sys) (hs : Inv env job s) : Inv env job (run env job s sched) := by
  induction sched generalizing s with
  | nil => exact hs
  | cons t ts ih => exact ih _ (step_inv env job hjob s t hs)

theorem run_append (env : Env) (job : Job) (s : Sys) (a b : List Tid) :
    run env job s (a ++ b) = run env job (run env job s a) b := by
  simp [run, List.foldl_append]


/-! ## The process: it gets through -/

theorem step_main_spawn (env : Env) (job : Job) (s : Sys) (host : HostConfig)
    (hret : s.returned = false) (hal : s.crashed = none)
    (hh : job.hosts[s.runners.length]? = some host) :
    step env job s .main =
      { s with
        wg := s.wg + 1,
        runners := s.runners ++
          [⟨(sshExecute host job.script job.config.Password
              (env.remote s.runners.length)).trace,
            (sshExecute host job.script job.config.Password
              (env.remote s.runners.length)).result⟩] } := by
  unfold step
  simp only [hret, hal, hh]
  rfl

theorem step_main_return (env : Env) (job : Job) (s : Sys)
    (hret : s.returned = false) (hal : s.crashed = none)
    (hh : job.hosts[s.runners.length]? = none) (hw : s.wg = 0) :
    step env job s .main =
      { s with
        events := s.events ++ [(.main, .print (completionNotice job.config.LogFile))],
        returned := true } := by
  unfold step
  simp only [hret, hal, hh, hw]
  rfl

theorem step_runner_call (env : Env) (job : Job) (s : Sys) (i : Nat) (r : Runner)
    (a : Action) (rest : List Action)
    (hret : s.returned = false) (hal : s.crashed = none)
    (hr : s.runners[i]? = some r) (ht : r.todo = a :: rest) (hwg : a = .wgDone → 0 < s.wg) :
    step env job s (.runner i) =
      { s with
        runners := s.runners.set i { r with todo := rest },
        events := s.events ++ [(.runner i, a)],
        wg := s.wg - (if a = .wgDone then 1 else 0) } := by
  by_cases ha : a = .wgDone
  · obtain ⟨n, hn⟩ : ∃ n, s.wg = n + 1 := ⟨s.wg - 1, by have := hwg ha; omega⟩
    unfold step
    simp only [hret, hal, hr, ht, ha, if_true, hn]
    simp
  · unfold step
    simp only [hret, hal, hr, ht, ha, if_false]
    simp

/-- While `main` has not returned, some goroutine can move, and its move either
is the return of `main` or leaves less work. -/
theorem progress (env : Env) (job : Job) (s : Sys) (hs : Inv env job s)
    (hret : s.returned = false) :
    ∃ t, (step env job s t).returned = true ∨
      workLeft job (step env job s t) < workLeft job s := by
  have hal := hs.alive
  cases hh : job.hosts[s.runners.length]? with
  | some host =>
    refine ⟨.main, Or.inr ?_⟩
    rw [step_main_spawn env job s host hret hal hh]
    have hlt : s.runners.length < job.hosts.length := by
      by_contra hge
      rw [List.getElem?_eq_none (by omega)] at hh
      cases hh
    have hlen := sshExecute_length host job.script job.config.Password
      (env.remote s.runners.length)
    simp only [workLeft, List.length_append, List.length_singleton, List.map_append,
      List.map_cons, List.map_nil, List.sum_append, List.sum_cons, List.sum_nil]
    omega
  | none =>
    by_cases hex : ∃ (i : Nat) (r : Runner), s.runners[i]? = some r ∧ r.todo ≠ []
    · obtain ⟨i, r, hr, hne⟩ := hex
      obtain ⟨a, rest, ht⟩ : ∃ a rest, r.todo = a :: rest := by
        cases h : r.todo with
        | nil => exact absurd h hne
        | cons a rest => exact ⟨a, rest, rfl⟩
      obtain ⟨hpos, _⟩ := runner_inv env job s hs hret i r a rest hr ht
      refine ⟨.runner i, Or.inr ?_⟩
      rw [step_runner_call env job s i r a rest hret hal hr ht hpos]
      have hsum := sum_map_set_add (fun r : Runner => r.todo.length) s.runners i r
        { r with todo := rest } hr
      simp only [ht, List.length_cons] at hsum
      simp only [workLeft, List.length_set]
      omega
    · refine ⟨.main, Or.inl ?_⟩
      have hw : s.wg = 0 := by
        rw [hs.counter, List.countP_eq_zero]
        intro r hr
        obtain ⟨i, hi⟩ := List.mem_iff_getElem?.mp hr
        have : r.todo = [] := by
          by_contra hne
          exact hex ⟨i, r, hi, hne⟩
        simp [this]
      rw [step_main_return env job s hret hal hh hw]

/-- From every state of the invariant there is a way to the return of `main`. -/
theorem completes (env : Env) (job : Job) (hjob : ∀ h ∈ job.hosts, '@' ∈ h.Address)
    (n : Nat) (s : Sys) (hs : Inv env job s) (hn : workLeft job s ≤ n) :
    ∃ ext, (run env job s ext).returned = true := by
  induction n generalizing s with
  | zero =>
    cases hret : s.returned with
    | true => exact ⟨[], hret⟩
    | false =>
      obtain ⟨t, ht | ht⟩ := progress env job s hs hret
      · exact ⟨[t], ht⟩
      · omega
  | succ n ih =>
    cases hret : s.returned with
    | true => exact ⟨[], hret⟩
    | false =>
      obtain ⟨t, ht | ht⟩ := progress env job s hs hret
      · exact ⟨[t], ht⟩
      · obtain ⟨ext, hext⟩ := ih (step env job s t) (step_inv env job hjob s t hs) (by omega)
        exact ⟨t :: ext, hext⟩

/-! ## The fleet `main` works on -/

theorem keptLines_cons (text : Str) (texts : List Str) :
    keptLines (text :: texts) =
      if (strings.TrimSpace text = [] || strings.HasPrefix (strings.TrimSpace text) '#') = true
      then keptLines texts else strings.TrimSpace text :: keptLines texts := by
  unfold keptLines
  rw [List.map_cons, List.filter_cons]
  by_cases h : (strings.TrimSpace text = [] || strings.HasPrefix (strings.TrimSpace text) '#')
      = true
  · rw [if_pos h, if_neg (by simp only [h]; simp)]
  · rw [if_neg h, if_pos (by simpa using h)]

theorem readHostsLoop_ok (texts : List Str) (acc : List HostConfig)
    (hw : ∀ line ∈ keptLines texts, line.count '@' = 1) :
    ∃ hosts, readHostsLoop texts acc = .ok (acc ++ hosts) ∧
      hosts.map Except.ok = (keptLines texts).map parseHostLine := by
  induction texts generalizing acc with
  | nil => exact ⟨[], by simp [readHostsLoop], by simp [keptLines]⟩
  | cons text texts ih =>
    rw [keptLines_cons] at hw ⊢
    unfold readHostsLoop
    by_cases h : (strings.TrimSpace text = [] || strings.HasPrefix (strings.TrimSpace text) '#')
        = true
    · simp only [h, if_true] at hw ⊢
      exact ih acc hw
    · simp only [h] at hw ⊢
      simp only [Bool.false_eq_true, if_false] at hw ⊢
      obtain ⟨d, hd, _⟩ := parseHostLine_ok _ (hw _ (List.mem_cons_self _ _))
      obtain ⟨hosts, h1, h2⟩ := ih (acc ++ [d]) (fun l hl => hw l (List.mem_cons_of_mem _ hl))
      refine ⟨d :: hosts, ?_, ?_⟩
      · simp only [hd]
        rw [h1]
        simp
      · simp [hd, h2]

theorem readHostsLoop_fatal (texts : List Str) (acc : List HostConfig)
    (hbad : ∃ line ∈ keptLines texts, line.count '@' ≠ 1) :
    ∃ line ∈ keptLines texts, line.count '@' ≠ 1 ∧
      readHostsLoop texts acc = .error (.fatal (invalidHostFormat line)) := by
  induction texts generalizing acc with
  | nil =>
    obtain ⟨l, hl, _⟩ := hbad
    simp [keptLines] at hl
  | cons text texts ih =>
    rw [keptLines_cons] at hbad ⊢
    unfold readHostsLoop
    by_cases h : (strings.TrimSpace text = [] || strings.HasPrefix (strings.TrimSpace text) '#')
        = true
    · simp only [h, if_true] at hbad ⊢
      exact ih acc hbad
    · simp only [h] at hbad ⊢
      simp only [Bool.false_eq_true, if_false] at hbad ⊢
      by_cases hc : (strings.TrimSpace text).count '@' = 1
      · obtain ⟨d, hd, _⟩ := parseHostLine_ok _ hc
        have hbad2 : ∃ line ∈ keptLines texts, line.count '@' ≠ 1 := by
          obtain ⟨l, hl, hne⟩ := hbad
          rcases List.mem_cons.mp hl with e | e
          · rw [e] at hne
            exact absurd hc hne
          · exact ⟨l, e, hne⟩
        obtain ⟨l, hl, hne, hr⟩ := ih (acc ++ [d]) hbad2
        refine ⟨l, List.mem_cons_of_mem _ hl, hne, ?_⟩
        simp only [hd]
        exact hr
      · refine ⟨_, List.mem_cons_self _ _, hc, ?_⟩
        simp only [parseHostLine_fatal _ hc]

theorem readHostsLoop_address (texts : List Str) (acc hosts : List HostConfig)
    (hacc : ∀ d ∈ acc, '@' ∈ d.Address) (h : readHostsLoop texts acc = .ok hosts) :
    ∀ d ∈ hosts, '@' ∈ d.Address := by
  induction texts generalizing acc with
  | nil =>
    simp only [readHostsLoop, Except.ok.injEq] at h
    rw [← h]
    exact hacc
  | cons text texts ih =>
    unfold readHostsLoop at h
    by_cases hk : (strings.TrimSpace text = [] ||
        strings.HasPrefix (strings.TrimSpace text) '#') = true
    · simp only [hk, if_true] at h
      exact ih acc hacc h
    · simp only [hk] at h
      simp only [Bool.false_eq_true, if_false] at h
      cases hp : parseHostLine (strings.TrimSpace text) with
      | error e =>
        simp only [hp] at h
        cases h
      | ok d =>
        simp only [hp] at h
        apply ih (acc ++ [d]) _ h
        intro x hx
        rcases List.mem_append.mp hx with hx | hx
        · exact hacc x hx
        · simp only [List.mem_singleton] at hx
          rw [hx]
          exact parseHostLine_address _ _ hp

theorem readHostsFile_address (env : Env) (filename : Str) (hosts : List HostConfig)
    (h : readHostsFile env filename = .ok hosts) : ∀ d ∈ hosts, '@' ∈ d.Address := by
  unfold readHostsFile at h
  split at h
  · cases h
  · exact readHostsLoop_address _ [] hosts (by simp) h

/-- What `start` has done when it hands over a job. -/
theorem start_ok (env : Env) (job : Job) (h : start env = .ok job) :
    loadConfig env "config.yaml".toList = .ok job.config ∧
    env.openFile job.config.LogFile = none ∧
    readHostsFile env job.config.HostsFile = .ok job.hosts ∧
    readScript env ("templates/".toList ++ job.config.Script) = .ok job.script := by
  unfold start at h
  split at h
  · cases h
  · rename_i config hc
    split at h
    · cases h
    · rename_i ho
      split at h
      · cases h
      · rename_i hosts hr
        split at h
        · cases h
        · rename_i script hsc
          cases h
          exact ⟨hc, ho, hr, hsc⟩

theorem start_address (env : Env) (job : Job) (h : start env = .ok job) :
    ∀ d ∈ job.hosts, '@' ∈ d.Address :=
  readHostsFile_address env _ _ (start_ok env job h).2.2.1


/-! ## Spans of frames -/

theorem dropWhile_append_of_all {α : Type} (p : α → Bool) (a b : List α)
    (h : ∀ x ∈ a, p x = true) : (a ++ b).dropWhile p = b.dropWhile p := by
  induction a with
  | nil => rfl
  | cons x xs ih =>
    rw [List.cons_append, List.dropWhile_cons, if_pos (h x (List.mem_cons_self _ _))]
    exact ih (fun y hy => h y (List.mem_cons_of_mem _ hy))

theorem dropWhile_ne_cases (t : Tid) (l : List Tid) :
    l.dropWhile (fun x => x ≠ t) = [] ∨
    ∃ rest, l.dropWhile (fun x => x ≠ t) = t :: rest ∧ l.count t = rest.count t + 1 := by
  induction l with
  | nil => left; rfl
  | cons x xs ih =>
    by_cases hx : x = t
    · right
      subst hx
      exact ⟨xs, by simp [List.dropWhile_cons], by simp⟩
    · rw [List.dropWhile_cons, if_pos (by simpa using hx), List.count_cons_of_ne (Ne.symm hx)]
      exact ih

theorem unbroken_of_count_le_one (t : Tid) (tags : List Tid) (h : tags.count t ≤ 1) :
    unbroken t tags = true := by
  unfold unbroken span
  rcases dropWhile_ne_cases t tags with h0 | ⟨rest, h1, h2⟩
  · rw [h0]
    rfl
  · have hrest : t ∉ rest := by
      apply List.count_eq_zero.mp
      omega
    rw [h1, List.reverse_cons, dropWhile_append_of_all]
    · simp
    · intro x hx
      have : x ≠ t := by
        rintro rfl
        exact hrest (List.mem_reverse.mp hx)
      simpa using this

theorem count_tags (p : Action → Bool) (t : Tid) (evs : List (Tid × Action)) :
    ((evs.filter (fun e => p e.2)).map (fun e => e.1)).count t
      = ((evs.filter (fun e => e.1 = t)).map (fun e => e.2)).countP p := by
  induction evs with
  | nil => rfl
  | cons e es ih =>
    obtain ⟨u, a⟩ := e
    by_cases hp : p a = true <;> by_cases hu : u = t <;>
      simp [List.filter_cons, hp, hu, ih, List.count_cons]

theorem Inv.emitted_begins {env : Env} {job : Job} {s : Sys} (hs : Inv env job s)
    (i : Nat) (host : HostConfig) (hh : job.hosts[i]? = some host) :
    emitted s (.runner i) <+:
      (sshExecute host job.script job.config.Password (env.remote i)).trace := by
  by_cases hlt : i < s.runners.length
  · obtain ⟨host2, h1, _, h3⟩ := hs.traces i _ (List.getElem?_eq_getElem hlt)
    rw [hh] at h1
    cases h1
    rw [← h3]
    exact List.prefix_append _ _
  · rw [hs.fresh i (by omega)]
    exact List.nil_prefix

theorem Inv.emitted_all {env : Env} {job : Job} {s : Sys} (hs : Inv env job s)
    (hret : s.returned = true) (i : Nat) (host : HostConfig)
    (hh : job.hosts[i]? = some host) :
    emitted s (.runner i)
      = (sshExecute host job.script job.config.Password (env.remote i)).trace := by
  obtain ⟨hlen, htodo, _⟩ := hs.done hret
  have hlt : i < s.runners.length := by
    rw [hlen]
    by_contra hge
    rw [List.getElem?_eq_none (by omega)] at hh
    cases hh
  have hr := List.getElem?_eq_getElem hlt
  obtain ⟨host2, h1, _, h3⟩ := hs.traces i _ hr
  rw [hh] at h1
  cases h1
  rw [← h3, htodo _ (List.mem_iff_getElem?.mpr ⟨i, hr⟩)]
  simp

theorem main_eq_run (env : Env) (job : Job) (h : start env = .ok job) (sched : List Tid) :
    main env sched = run env job Sys.init sched := by
  unfold main
  rw [h]

theorem main_inv (env : Env) (job : Job) (h : start env = .ok job) (sched : List Tid) :
    Inv env job (main env sched) := by
  rw [main_eq_run env job h]
  exact run_inv env job (start_address env job h) sched _ (init_inv env job)

theorem sshExecute_dial_once (host : HostConfig) (script password : Str) (r : Remote)
    (hat : '@' ∈ host.Address) :
    (sshExecute host script password r).trace.countP Action.isDial = 1 := by
  obtain ⟨hp, ho, h1, h2⟩ := sshExecute_indices host.Address hat
  unfold sshExecute
  simp only [h1, h2]
  rcases r with ⟨_ | d, _ | s, o, _ | e⟩ <;> simp [List.countP_cons, Action.isDial]

theorem sshExecute_one_logWrite (host : HostConfig) (script password : Str) (r : Remote)
    (h : r.dialErr ≠ none ∨ r.sessionErr ≠ none) :
    (sshExecute host script password r).trace.countP Action.isLogWrite ≤ 1 := by
  by_cases hat : '@' ∈ host.Address
  · obtain ⟨hp, ho, h1, h2⟩ := sshExecute_indices host.Address hat
    unfold sshExecute
    simp only [h1, h2]
    rcases r with ⟨_ | d, _ | s, o, _ | e⟩ <;>
      simp [List.countP_cons, Action.isLogWrite] at h ⊢
  · rw [sshExecute_panics _ _ _ _ hat]
    simp [List.countP_cons, Action.isLogWrite]

theorem sshExecute_one_print (host : HostConfig) (script password : Str) (r : Remote)
    (h : r.dialErr ≠ none ∨ r.sessionErr ≠ none ∨ r.runErr = none) :
    (sshExecute host script password r).trace.countP Action.isPrint ≤ 1 := by
  by_cases hat : '@' ∈ host.Address
  · obtain ⟨hp, ho, h1, h2⟩ := sshExecute_indices host.Address hat
    unfold sshExecute
    simp only [h1, h2]
    rcases r with ⟨_ | d, _ | s, o, _ | e⟩ <;>
      simp [List.countP_cons, Action.isPrint] at h ⊢
  · rw [sshExecute_panics _ _ _ _ hat]
    simp [List.countP_cons, Action.isPrint]


/-! ## The fleet file -/

theorem scanTexts_of_short (data : Str)
    (hshort : ∀ line ∈ bufio.rawLines data, bufio.byteLen line < bufio.MaxScanTokenSize) :
    bufio.scanTexts data = bufio.fileLines data := by
  unfold bufio.scanTexts bufio.fileLines
  rw [List.takeWhile_eq_self_iff.mpr]
  intro line hl
  simpa using hshort line hl

/-- When no line of the fleet file reaches `MaxScanTokenSize` bytes and every
kept line is well formed, `readHostsFile` returns the descriptors of the kept
lines of the file, in the order of the file. -/
theorem readHostsFile_of_short_lines (env : Env) (filename data : Str)
    (ho : env.openData filename = .ok data)
    (hshort : ∀ line ∈ bufio.rawLines data, bufio.byteLen line < bufio.MaxScanTokenSize)
    (hw : ∀ line ∈ keptLines (bufio.fileLines data), line.count '@' = 1) :
    ∃ hosts, readHostsFile env filename = .ok hosts ∧
      hosts.map Except.ok = (keptLines (bufio.fileLines data)).map parseHostLine := by
  obtain ⟨hosts, h1, h2⟩ := readHostsLoop_ok (bufio.fileLines data) [] hw
  refine ⟨hosts, ?_, h2⟩
  unfold readHostsFile
  rw [ho]
  simp only [scanTexts_of_short data hshort]
  simpa using h1

/-- When a malformed line is among the lines the scanner delivers, `main` stops
with a fatal error before the `for` loop, whatever the order of moves. -/
theorem main_aborts_on_scanned_malformed_line (env : Env) (config : Config) (data : Str)
    (hcfg : loadConfig env "config.yaml".toList = .ok config)
    (hopen : env.openData config.HostsFile = .ok data)
    (hbad : ∃ line ∈ keptLines (bufio.scanTexts data), line.count '@' ≠ 1)
    (sched : List Tid) :
    ∃ msg, main env sched = Sys.aborted (.fatal msg) := by
  obtain ⟨line, hl, hne, hr⟩ := readHostsLoop_fatal (bufio.scanTexts data) [] hbad
  have hread : readHostsFile env config.HostsFile = .error (.fatal (invalidHostFormat line)) := by
    unfold readHostsFile
    rw [hopen]
    exact hr
  cases ho : env.openFile config.LogFile with
  | some err =>
    refine ⟨"Failed to open log file: ".toList ++ err, ?_⟩
    unfold main start
    simp only [hcfg, ho]
  | none =>
    refine ⟨invalidHostFormat line, ?_⟩
    unfold main start
    simp only [hcfg, ho, hread]

theorem longLine_eq : longLine = ('#' :: List.replicate 65534 'x') ++ ['x'] := by
  show '#' :: List.replicate (65534 + 1) 'x' = _
  rw [List.replicate_succ']
  rfl

theorem byteLen_hash_xs (n : Nat) : bufio.byteLen ('#' :: List.replicate n 'x') = n + 1 := by
  have hx : Char.utf8Size 'x' = 1 := by decide
  have hh : Char.utf8Size '#' = 1 := by decide
  simp [bufio.byteLen, List.map_replicate, List.sum_replicate, hx, hh]
  omega

theorem byteLen_longLine : bufio.byteLen longLine = 65536 :=
  byteLen_hash_xs 65535

theorem longLine_too_long :
    decide (bufio.byteLen longLine < bufio.MaxScanTokenSize) = false := by
  rw [byteLen_longLine]
  decide

theorem newline_not_mem_hash_xs (n : Nat) : '\n' ∉ '#' :: List.replicate n 'x' := by
  simp [List.mem_replicate]

theorem newline_not_mem_longLine : '\n' ∉ longLine :=
  newline_not_mem_hash_xs 65535

theorem dropCR_longLine : bufio.dropCR longLine = longLine := by
  unfold bufio.dropCR
  rw [longLine_eq, List.getLast?_concat, if_neg (by decide)]

theorem TrimSpace_of_ends (a b : Char) (mid : Str) (ha : strings.isSpace a = false)
    (hb : strings.isSpace b = false) :
    strings.TrimSpace ((a :: mid) ++ [b]) = (a :: mid) ++ [b] := by
  unfold strings.TrimSpace
  have h1 : ((a :: mid) ++ [b]).dropWhile strings.isSpace = (a :: mid) ++ [b] := by
    rw [List.cons_append, List.dropWhile_cons, if_neg (by simp [ha])]
  have h2 : ((a :: mid) ++ [b]).reverse = b :: (a :: mid).reverse := by
    simp
  rw [h1, h2, List.dropWhile_cons, if_neg (by simp [hb]), ← h2, List.reverse_reverse]

theorem TrimSpace_longLine : strings.TrimSpace longLine = longLine := by
  rw [longLine_eq]
  exact TrimSpace_of_ends '#' 'x' _ (by decide) (by decide)

theorem HasPrefix_longLine : strings.HasPrefix longLine '#' = true := rfl

/-- The lines of a file that holds `alice@10.0.0.1`, then `longLine`, then the
text `tail`. -/
theorem rawLines_long (tail : Str) (last : Str) (pieces : List Str)
    (ht : strings.Split tail '\n' = last :: pieces ++ [[]]) :
    bufio.rawLines ("alice@10.0.0.1".toList ++ '\n' :: (longLine ++ '\n' :: tail))
      = "alice@10.0.0.1".toList :: longLine :: last :: pieces := by
  unfold bufio.rawLines
  rw [strings.Split_append _ _ _ (by decide), strings.Split_append _ _ _ newline_not_mem_longLine,
    ht]
  have e : "alice@10.0.0.1".toList :: longLine :: (last :: pieces ++ [[]])
      = ("alice@10.0.0.1".toList :: longLine :: last :: pieces) ++ [[]] := by simp
  simp only [e, List.getLast?_concat, if_true, List.dropLast_concat]

/-- The scanner stops at `longLine`: only the first line is delivered. -/
theorem scanTexts_long (tail : Str) (last : Str) (pieces : List Str)
    (ht : strings.Split tail '\n' = last :: pieces ++ [[]]) :
    bufio.scanTexts ("alice@10.0.0.1".toList ++ '\n' :: (longLine ++ '\n' :: tail))
      = ["alice@10.0.0.1".toList] := by
  unfold bufio.scanTexts
  rw [rawLines_long tail last pieces ht, List.takeWhile_cons, if_pos (by decide),
    List.takeWhile_cons, if_neg (by simp [longLine_too_long])]
  decide

/-- The kept lines of the file are the first line and the kept ones of `tail`. -/
theorem keptLines_long (tail : Str) (last : Str)
    (ht : strings.Split tail '\n' = [last, []]) (hcr : bufio.dropCR last = last)
    (htrim : strings.TrimSpace last = last) (hne : last ≠ [])
    (hpre : strings.HasPrefix last '#' = false) :
    keptLines (bufio.fileLines
        ("alice@10.0.0.1".toList ++ '\n' :: (longLine ++ '\n' :: tail)))
      = ["alice@10.0.0.1".toList, last] := by
  unfold bufio.fileLines
  rw [rawLines_long tail last [] (by simpa using ht)]
  have ha : bufio.dropCR "alice@10.0.0.1".toList = "alice@10.0.0.1".toList := by decide
  have hta : strings.TrimSpace "alice@10.0.0.1".toList = "alice@10.0.0.1".toList := by decide
  simp only [List.map_cons, List.map_nil, ha, dropCR_longLine, hcr]
  rw [keptLines_cons, hta, if_neg (by decide), keptLines_cons, TrimSpace_longLine,
    if_pos (by simp [HasPrefix_longLine]), keptLines_cons, htrim,
    if_neg (by simp [hne, hpre])]
  rfl

theorem readHostsFile_long (env : Env) (filename tail last : Str) (pieces : List Str)
    (ho : env.openData filename
      = .ok ("alice@10.0.0.1".toList ++ '\n' :: (longLine ++ '\n' :: tail)))
    (ht : strings.Split tail '\n' = last :: pieces ++ [[]]) :
    readHostsFile env filename
      = .ok [⟨"alice@10.0.0.1".toList, "alice".toList, "22".toList⟩] := by
  unfold readHostsFile
  rw [ho]
  simp only [scanTexts_long tail last pieces ht]
  decide

theorem start_long (env : Env) (tail last : Str) (pieces : List Str)
    (hcfg : loadConfig env "config.yaml".toList = .ok aloneJob.config)
    (hlog : env.openFile aloneJob.config.LogFile = none)
    (ho : env.openData aloneJob.config.HostsFile
      = .ok ("alice@10.0.0.1".toList ++ '\n' :: (longLine ++ '\n' :: tail)))
    (ht : strings.Split tail '\n' = last :: pieces ++ [[]])
    (hs : readScript env ("templates/".toList ++ aloneJob.config.Script) = .ok aloneJob.script) :
    start env = .ok aloneJob := by
  unfold start
  simp only [hcfg, hlog, readHostsFile_long env _ tail last pieces ho ht, hs]
  rfl

/-- C3, at a failing input: the fleet file `longFleet` holds the line
`alice@10.0.0.1`, a comment line of 65536 bytes and the line
`bob@10.0.0.2:2200`.  Its kept lines are the first and the third, both well
formed, and `parseHostLine` gives a descriptor with port `2200` for the third;
but `readHostsFile` returns the descriptor of the first line only: the scanner
stops at the long line, `scanner.Err()` is never read, and the loop ends as at
the end of the file. -/
theorem readHostsFile_stops_at_long_line :
    longEnv.openData "hosts.txt".toList = .ok longFleet ∧
    keptLines (bufio.fileLines longFleet)
      = ["alice@10.0.0.1".toList, "bob@10.0.0.2:2200".toList] ∧
    (∀ line ∈ keptLines (bufio.fileLines longFleet), line.count '@' = 1) ∧
    (keptLines (bufio.fileLines longFleet)).map parseHostLine
      = [.ok ⟨"alice@10.0.0.1".toList, "alice".toList, "22".toList⟩,
         .ok ⟨"bob@10.0.0.2".toList, "bob".toList, "2200".toList⟩] ∧
    readHostsFile longEnv "hosts.txt".toList
      = .ok [⟨"alice@10.0.0.1".toList, "alice".toList, "22".toList⟩] := by
  have hk : keptLines (bufio.fileLines longFleet)
      = ["alice@10.0.0.1".toList, "bob@10.0.0.2:2200".toList] :=
    keptLines_long "bob@10.0.0.2:2200\n".toList "bob@10.0.0.2:2200".toList
      (by decide) (by decide) (by decide) (by decide) (by decide)
  refine ⟨rfl, hk, ?_, ?_, ?_⟩
  · rw [hk]
    decide
  · rw [hk]
    decide
  · exact readHostsFile_long longEnv _ "bob@10.0.0.2:2200\n".toList
      "bob@10.0.0.2:2200".toList [] rfl (by decide)

/-- C4, at a failing input: the fleet file `longBrokenFleet` holds the line
`alice@10.0.0.1`, a comment line of 65536 bytes and the malformed line
`not-a-valid-line`, which is a kept line of the file.  `main` does not stop:
the scanner ends at the long line, the malformed line is never read, the loop
starts with the first host alone, its goroutine dials `10.0.0.1:22`, and `main`
prints the completion notice and returns. -/
theorem main_runs_past_unread_malformed_line :
    longBrokenEnv.openData aloneJob.config.HostsFile = .ok longBrokenFleet ∧
    "not-a-valid-line".toList ∈ keptLines (bufio.fileLines longBrokenFleet) ∧
    "not-a-valid-line".toList.count '@' ≠ 1 ∧
    start longBrokenEnv = .ok aloneJob ∧
    (main longBrokenEnv alone).crashed = none ∧
    (main longBrokenEnv alone).returned = true ∧
    (Tid.runner 0, Action.dial "10.0.0.1:22".toList "alice".toList "pw".toList)
      ∈ (main longBrokenEnv alone).events := by
  have hk : keptLines (bufio.fileLines longBrokenFleet)
      = ["alice@10.0.0.1".toList, "not-a-valid-line".toList] :=
    keptLines_long "not-a-valid-line\n".toList "not-a-valid-line".toList
      (by decide) (by decide) (by decide) (by decide) (by decide)
  have hs : start longBrokenEnv = .ok aloneJob :=
    start_long longBrokenEnv "not-a-valid-line\n".toList "not-a-valid-line".toList []
      (by decide) (by decide) rfl (by decide) (by decide)
  have hm : main longBrokenEnv alone = run longBrokenEnv aloneJob Sys.init alone :=
    main_eq_run longBrokenEnv aloneJob hs alone
  refine ⟨rfl, ?_, by decide, hs, ?_, ?_, ?_⟩
  · rw [hk]
    decide
  · rw [hm]
    decide
  · rw [hm]
    decide
  · rw [hm]
    decide

/-! ## The fan-out -/

theorem sshExecute_logText (host : HostConfig) (script password : Str) (r : Remote)
    (hat : '@' ∈ host.Address) :
    logText (sshExecute host script password r).trace = frameText host r := by
  obtain ⟨hp, ho, h1, h2⟩ := sshExecute_indices host.Address hat
  unfold sshExecute frameText
  simp only [h1, h2]
  rcases r with ⟨_ | d, _ | s, o, _ | e⟩ <;> simp [logText]

theorem sshExecute_consoleText (host : HostConfig) (script password : Str) (r : Remote)
    (hat : '@' ∈ host.Address) :
    consoleText (sshExecute host script password r).trace = frameText host r := by
  obtain ⟨hp, ho, h1, h2⟩ := sshExecute_indices host.Address hat
  unfold sshExecute frameText
  simp only [h1, h2]
  rcases r with ⟨_ | d, _ | s, o, _ | e⟩ <;> simp [consoleText]

theorem sshExecute_logWrite_pos (host : HostConfig) (script password : Str) (r : Remote)
    (hat : '@' ∈ host.Address) :
    0 < (sshExecute host script password r).trace.countP Action.isLogWrite := by
  obtain ⟨hp, ho, h1, h2⟩ := sshExecute_indices host.Address hat
  unfold sshExecute
  simp only [h1, h2]
  rcases r with ⟨_ | d, _ | s, o, _ | e⟩ <;> simp [List.countP_cons, Action.isLogWrite]

/-- Every frame names its host: it holds the address in square brackets. -/
theorem frameText_label (host : HostConfig) (r : Remote) :
    hostLabel host <:+: frameText host r := by
  unfold frameText hostLabel
  rcases r with ⟨_ | d, _ | s, o, e⟩
  · exact ⟨"\n====== ".toList, " ======\n".toList ++ o ++ "\n".toList ++
        (match e with
         | some err => executionErrorMsg host.Address err
         | none => []), by simp [frameHeader]⟩
  · exact ⟨[], " SSH session error: ".toList ++ s ++ "\n".toList, by simp [sessionErrorMsg]⟩
  · exact ⟨[], " SSH connection error: ".toList ++ d ++ "\n".toList,
      by simp [connectionErrorMsg]⟩
  · exact ⟨[], " SSH connection error: ".toList ++ d ++ "\n".toList,
      by simp [connectionErrorMsg]⟩

/-- When `main` has returned, the writers of the log file are exactly the
goroutines of the positions of the fleet. -/
theorem Inv.log_writers {env : Env} {job : Job} {s : Sys} (hs : Inv env job s)
    (hjob : ∀ h ∈ job.hosts, '@' ∈ h.Address) (hret : s.returned = true) (t : Tid) :
    t ∈ logTags s ↔ ∃ i, i < job.hosts.length ∧ t = .runner i := by
  have hcount : (logTags s).count t = (emitted s t).countP Action.isLogWrite := by
    unfold logTags emitted
    exact count_tags Action.isLogWrite t s.events
  rw [← List.count_pos_iff, hcount]
  constructor
  · intro hpos
    cases t with
    | main =>
      have hn := hs.notice
      rw [hret] at hn
      rw [hn] at hpos
      simp [List.countP_cons, Action.isLogWrite] at hpos
    | runner i =>
      refine ⟨i, ?_, rfl⟩
      by_contra hge
      rw [hs.fresh i (le_trans hs.length_le (by omega))] at hpos
      simp at hpos
  · rintro ⟨i, hi, rfl⟩
    have hh := List.getElem?_eq_getElem hi
    rw [hs.emitted_all hret i _ hh]
    exact sshExecute_logWrite_pos _ _ _ _ (hjob _ (List.mem_iff_getElem?.mpr ⟨i, hh⟩))

/-- C8: for every fleet `main` gets from the fleet file (`N` descriptors), every
answer of the network and every order of moves of the goroutines: no panic
happens; only the goroutines of the `N` positions ever do anything, and what
the goroutine of position `i` has done is a beginning of the one run of
`sshExecute` for descriptor `i`, which dials once; once `main` has returned,
each of the `N` goroutines has made its whole run, the text it wrote to the log
and the text it printed are the frame of its descriptor for the answer of the
network (connection error, session error, or header, output and execution
error), a frame that names the host, the writers of the log file are exactly
the `N` goroutines (`N` frames, one for each descriptor), and the completion
notice is the last call made, printed once; and whatever has happened so far,
the moves can go on so that `main` returns. -/
theorem main_one_frame_per_host (env : Env) (job : Job) (hstart : start env = .ok job)
    (sched : List Tid) :
    (main env sched).crashed = none ∧
    (∀ i, job.hosts.length ≤ i → emitted (main env sched) (.runner i) = []) ∧
    (∀ i host, job.hosts[i]? = some host →
      emitted (main env sched) (.runner i)
        <+: (sshExecute host job.script job.config.Password (env.remote i)).trace ∧
      (sshExecute host job.script job.config.Password (env.remote i)).result = .ok () ∧
      (sshExecute host job.script job.config.Password (env.remote i)).trace.countP
        Action.isDial = 1) ∧
    ((main env sched).returned = true →
      (∀ i host, job.hosts[i]? = some host →
        emitted (main env sched) (.runner i)
          = (sshExecute host job.script job.config.Password (env.remote i)).trace ∧
        logText (emitted (main env sched) (.runner i)) = frameText host (env.remote i) ∧
        consoleText (emitted (main env sched) (.runner i)) = frameText host (env.remote i) ∧
        hostLabel host <:+: frameText host (env.remote i)) ∧
      (∀ t, t ∈ logTags (main env sched) ↔ ∃ i, i < job.hosts.length ∧ t = .runner i) ∧
      (main env sched).events.getLast?
        = some (.main, .print (completionNotice job.config.LogFile)) ∧
      emitted (main env sched) .main = [.print (completionNotice job.config.LogFile)]) ∧
    (∃ ext, (main env (sched ++ ext)).returned = true) := by
  have hinv := main_inv env job hstart sched
  have hjob := start_address env job hstart
  refine ⟨hinv.alive, ?_, ?_, ?_, ?_⟩
  · intro i hi
    exact hinv.fresh i (le_trans hinv.length_le hi)
  · intro i host hh
    have hat := hjob host (List.mem_iff_getElem?.mpr ⟨i, hh⟩)
    exact ⟨hinv.emitted_begins i host hh, sshExecute_result _ _ _ _ hat,
      sshExecute_dial_once _ _ _ _ hat⟩
  · intro hret
    refine ⟨?_, fun t => hinv.log_writers hjob hret t, (hinv.done hret).2.2, ?_⟩
    · intro i host hh
      have hat := hjob host (List.mem_iff_getElem?.mpr ⟨i, hh⟩)
      have hall := hinv.emitted_all hret i host hh
      refine ⟨hall, ?_, ?_, frameText_label host _⟩
      · rw [hall]
        exact sshExecute_logText _ _ _ _ hat
      · rw [hall]
        exact sshExecute_consoleText _ _ _ _ hat
    · have := hinv.notice
      rw [hret] at this
      exact this
  · obtain ⟨ext, hext⟩ := completes env job hjob _ (main env sched) hinv (le_refl _)
    refine ⟨ext, ?_⟩
    rw [main_eq_run env job hstart, run_append, ← main_eq_run env job hstart]
    exact hext

theorem main_one_frame_per_host_witness :
    (main demoEnv oneByOne).crashed = none ∧
    (∀ i, demoJob.hosts.length ≤ i → emitted (main demoEnv oneByOne) (.runner i) = []) ∧
    (∀ i host, demoJob.hosts[i]? = some host →
      emitted (main demoEnv oneByOne) (.runner i)
        <+: (sshExecute host demoJob.script demoJob.config.Password (demoEnv.remote i)).trace ∧
      (sshExecute host demoJob.script demoJob.config.Password (demoEnv.remote i)).result
        = .ok () ∧
      (sshExecute host demoJob.script demoJob.config.Password (demoEnv.remote i)).trace.countP
        Action.isDial = 1) ∧
    ((main demoEnv oneByOne).returned = true →
      (∀ i host, demoJob.hosts[i]? = some host →
        emitted (main demoEnv oneByOne) (.runner i)
          = (sshExecute host demoJob.script demoJob.config.Password
              (demoEnv.remote i)).trace ∧
        logText (emitted (main demoEnv oneByOne) (.runner i))
          = frameText host (demoEnv.remote i) ∧
        consoleText (emitted (main demoEnv oneByOne) (.runner i))
          = frameText host (demoEnv.remote i) ∧
        hostLabel host <:+: frameText host (demoEnv.remote i)) ∧
      (∀ t, t ∈ logTags (main demoEnv oneByOne)
        ↔ ∃ i, i < demoJob.hosts.length ∧ t = .runner i) ∧
      (main demoEnv oneByOne).events.getLast?
        = some (.main, .print (completionNotice demoJob.config.LogFile)) ∧
      emitted (main demoEnv oneByOne) .main
        = [.print (completionNotice demoJob.config.LogFile)]) ∧
    (∃ ext, (main demoEnv (oneByOne ++ ext)).returned = true) :=
  main_one_frame_per_host demoEnv demoJob (by decide) oneByOne

/-- C9, as stated, fails: in the world `busyEnv` (two hosts, both commands
fail) and the order of moves `interleaved`, `main` returns, and both in the log
file and on the console the writes of the second host lie between the writes of
the first host: its frame is broken. -/
theorem frames_can_interleave :
    start busyEnv = .ok demoJob ∧
    (main busyEnv interleaved).returned = true ∧
    (main busyEnv interleaved).crashed = none ∧
    logTags (main busyEnv interleaved)
      = [.runner 0, .runner 0, .runner 0, .runner 1, .runner 1, .runner 1, .runner 1,
         .runner 0] ∧
    consoleTags (main busyEnv interleaved) = [.runner 0, .runner 1, .runner 1, .runner 0, .main] ∧
    unbroken (.runner 0) (logTags (main busyEnv interleaved)) = false ∧
    unbroken (.runner 0) (consoleTags (main busyEnv interleaved)) = false := by
  decide

/-- C9, amended: a frame that is written by one call is never broken.  For
every fleet `main` gets from the fleet file, every answer of the network and
every order of moves: in the log file nothing lies inside the span of the
frame of a host whose connection or session failed; on the console nothing lies
inside the span of the frame of such a host, nor of a host whose command
returned no error. -/
theorem single_call_frames_unbroken (env : Env) (job : Job) (hstart : start env = .ok job)
    (sched : List Tid) (i : Nat) (host : HostConfig) (hh : job.hosts[i]? = some host) :
    ((env.remote i).dialErr ≠ none ∨ (env.remote i).sessionErr ≠ none →
      unbroken (.runner i) (logTags (main env sched)) = true) ∧
    ((env.remote i).dialErr ≠ none ∨ (env.remote i).sessionErr ≠ none ∨
        (env.remote i).runErr = none →
      unbroken (.runner i) (consoleTags (main env sched)) = true) := by
  have hinv := main_inv env job hstart sched
  have hpre := hinv.emitted_begins i host hh
  constructor
  · intro h
    apply unbroken_of_count_le_one
    unfold logTags
    rw [count_tags Action.isLogWrite]
    exact le_trans (hpre.sublist.countP_le _) (sshExecute_one_logWrite _ _ _ _ h)
  · intro h
    apply unbroken_of_count_le_one
    unfold consoleTags
    rw [count_tags Action.isPrint]
    exact le_trans (hpre.sublist.countP_le _) (sshExecute_one_print _ _ _ _ h)

theorem single_call_frames_unbroken_witness :
    unbroken (.runner 1) (logTags (main demoEnv interleaved)) = true ∧
    unbroken (.runner 1) (consoleTags (main demoEnv interleaved)) = true :=
  ⟨(single_call_frames_unbroken demoEnv demoJob (by decide) interleaved 1
      ⟨"bob@10.0.0.2".toList, "bob".toList, "2200".toList⟩ (by decide)).1 (by decide),
   (single_call_frames_unbroken demoEnv demoJob (by decide) interleaved 1
      ⟨"bob@10.0.0.2".toList, "bob".toList, "2200".toList⟩ (by decide)).2 (by decide)⟩


end Sshpar
